import Mathlib

/-!
# Recommendation engine of `script.js`

A shallow embedding of the recommendation core of `src/script.js`: the static
catalog (`items`, `exampleRatingsMatrix`, `allTags`), the user profile
(`userState`), the content-based recommender (`itemToVector`,
`cosineSimilarity`, `getUserPreferenceVector`, `getContentBasedRecommendations`),
the collaborative recommender (`pearsonCorrelation`,
`getCollaborativeRecommendations`) and the handlers that change the profile
(`toggleLike`, `updateRating`, `resetUserState`).

## Modelling conventions

* JavaScript numbers are modelled by an arbitrary linearly ordered field `α`
  (the intended instance is `ℝ`); `Math.sqrt` is passed in as the parameter
  `sqrt`, instantiated with `Real.sqrt` in the statements that need its
  properties.  Rounding and `NaN` are therefore outside this model: it is the
  code in exact arithmetic.
* Where rounding decides a statement, the collaborative recommender is given a
  second time in namespace `Binary64`, with every arithmetic operation rounded
  to IEEE 754 binary64 as JavaScript does.
* The global `userState` becomes an explicit argument.  `likedItems` is a list
  of ids (insertion order kept); the `ratings` object is a finite map read as a
  function `Nat → Option α` (`none` = no such key).
* `Array.prototype.sort(cmp)` is a stable sort; for the comparators used here
  (a difference of two numbers) it is modelled by a stable insertion sort that
  places `a` before `b` when `cmp a b ≤ 0`.
* `for`/`forEach`/`reduce` loops are left folds over the traversed array.
-/

namespace RecSys

/-! ## Data -/

/-- An entry of the `items` array. -/
structure Item where
  id : Nat
  title : String
  type : String
  description : String
  tags : List String
  imageIcon : String
deriving DecidableEq, Inhabited

/-- The `items` constant (script.js, lines 6-87). -/
def items : List Item :=
  [ { id := 1, title := "The Matrix", type := "movie",
      description := "A computer hacker learns from mysterious rebels about the true nature of his reality.",
      tags := ["sci-fi", "action", "thriller"], imageIcon := "🎬" },
    { id := 2, title := "The Lord of the Rings", type := "book",
      description := "A meek Hobbit and eight companions set out to destroy the One Ring.",
      tags := ["fantasy", "adventure", "drama"], imageIcon := "📚" },
    { id := 3, title := "Inception", type := "movie",
      description := "A thief who steals corporate secrets through dream-sharing technology.",
      tags := ["sci-fi", "action", "thriller", "mystery"], imageIcon := "🎬" },
    { id := 4, title := "Pride and Prejudice", type := "book",
      description := "Story about the turbulent relationship between Elizabeth Bennet and Mr. Darcy.",
      tags := ["romance", "drama", "classic"], imageIcon := "📚" },
    { id := 5, title := "Interstellar", type := "movie",
      description := "A team of explorers travel through a wormhole in space to ensure humanity\x27s survival.",
      tags := ["sci-fi", "drama", "adventure"], imageIcon := "🎬" },
    { id := 6, title := "Harry Potter and the Sorcerer\x27s Stone", type := "book",
      description := "A young boy discovers he is a wizard and attends a magical school.",
      tags := ["fantasy", "adventure", "mystery"], imageIcon := "📚" },
    { id := 7, title := "The Dark Knight", type := "movie",
      description := "Batman faces the Joker, a criminal mastermind who seeks to undermine order in Gotham.",
      tags := ["action", "crime", "drama", "thriller"], imageIcon := "🎬" },
    { id := 8, title := "The Hitchhiker\x27s Guide to the Galaxy", type := "book",
      description := "Miserable Earthling Arthur Dent is rescued by his friend Ford Prefect.",
      tags := ["sci-fi", "comedy", "adventure"], imageIcon := "📚" },
    { id := 9, title := "hum aapke hai kon", type := "movie",
      description := "romance movie",
      tags := ["romance", "drama", "comedy", "music"], imageIcon := "🎬" },
    { id := 10, title := "The Da Vinci Code", type := "book",
      description := "A murder in the Louvre Museum leads to a battle between secret societies.",
      tags := ["mystery", "thriller", "adventure"], imageIcon := "📚" } ]

section Numeric

variable {α : Type} [LinearOrderedField α]

/-- The `exampleRatingsMatrix` constant (script.js, lines 92-98): one row per
example user, one column per item id 1-10, `0` meaning "not rated". -/
def exampleRatingsMatrix : List (List α) :=
  [ [5, 4, 0, 2, 5, 0, 4, 0, 3, 0],
    [0, 5, 4, 0, 3, 5, 0, 4, 0, 2],
    [3, 0, 5, 4, 0, 3, 5, 0, 4, 0],
    [0, 4, 0, 5, 4, 0, 3, 5, 0, 4],
    [4, 0, 3, 0, 5, 4, 0, 3, 5, 0] ]

end Numeric

/-- The `allTags` constant: `[...new Set(items.flatMap(item => item.tags))]`,
the distinct tags in first-seen order. -/
def allTags : List String :=
  (items.flatMap (fun item => item.tags)).eraseDups

/-- The `userState` global: liked item ids and the `ratings` object. -/
structure UserState (α : Type) where
  likedItems : List Nat
  ratings : Nat → Option α

/-- An element of the array returned by `getContentBasedRecommendations`. -/
structure ContentResult (α : Type) where
  item : Item
  score : α
  matchingTags : List String
deriving DecidableEq

/-- An element of `userSimilarities` in `getCollaborativeRecommendations`. -/
structure UserSimilarity (α : Type) where
  userId : Nat
  similarity : α

/-- An element of the array returned by `getCollaborativeRecommendations`. -/
structure CollabResult (α : Type) where
  item : Item
  predictedRating : α
deriving DecidableEq

section Numeric

variable {α : Type} [LinearOrderedField α]

/-- The method `Array.prototype.sort(cmp)` for a comparator `cmp` returning a
number: a stable sort that puts `a` before `b` when `cmp a b ≤ 0`. -/
def sort {β : Type} (cmp : β → β → α) (l : List β) : List β :=
  l.insertionSort (fun a b => cmp a b ≤ 0)

/-! ## Content-based recommendation -/

/-- Function `itemToVector` (script.js, lines 155-157). -/
def itemToVector (item : Item) : List α :=
  allTags.map (fun tag => if item.tags.contains tag then 1 else 0)

/-- Function `cosineSimilarity` (script.js, lines 165-180).  The dot-product
loop runs over the indices of `vecA`; it is a fold over the zipped vectors,
which is exact whenever `vecB` is at least as long as `vecA`. -/
def cosineSimilarity (sqrt : α → α) (vecA vecB : List α) : α :=
  let dotProduct := (vecA.zip vecB).foldl (fun dot p => dot + p.1 * p.2) 0
  let magnitudeA := sqrt (vecA.foldl (fun sum val => sum + val * val) 0)
  let magnitudeB := sqrt (vecB.foldl (fun sum val => sum + val * val) 0)
  if magnitudeA = 0 ∨ magnitudeB = 0 then 0
  else dotProduct / (magnitudeA * magnitudeB)

/-- Function `getUserPreferenceVector` (script.js, lines 186-205). -/
def getUserPreferenceVector (st : UserState α) : List α :=
  let userVector : List α := List.replicate allTags.length 0
  if st.likedItems.length = 0 then userVector
  else
    st.likedItems.foldl
      (fun userVector itemId =>
        match items.find? (fun item => item.id == itemId) with
        | some item => List.zipWith (fun u v => u + v) userVector (itemToVector item)
        | none => userVector)
      userVector

/-- Function `getContentBasedRecommendations` (script.js, lines 211-245). -/
def getContentBasedRecommendations (sqrt : α → α) (st : UserState α) :
    List (ContentResult α) :=
  let userVector := getUserPreferenceVector st
  if userVector.all (fun val => decide (val = 0)) then []
  else
    let itemScores : List (ContentResult α) :=
      items.filterMap (fun item =>
        if st.likedItems.contains item.id then none
        else
          let itemVector : List α := itemToVector item
          let similarity := cosineSimilarity sqrt userVector itemVector
          let matchingTags :=
            (allTags.enum.filter (fun p =>
              decide (userVector.getD p.1 0 > 0) && decide (itemVector.getD p.1 0 > 0))).map
              Prod.snd
          some { item := item, score := similarity, matchingTags := matchingTags })
    (sort (fun a b => b.score - a.score) itemScores).take 5

/-! ## Collaborative filtering -/

/-- Function `pearsonCorrelation` (script.js, lines 257-290).  `commonItems`
holds the pairs `(a, b)` of the positions where both ratings are `> 0`. -/
def pearsonCorrelation (sqrt : α → α) (userARatings userBRatings : List α) : α :=
  let commonItems := (userARatings.zip userBRatings).filter
    (fun p => decide (p.1 > 0) && decide (p.2 > 0))
  if commonItems.length < 2 then 0
  else
    let meanA := commonItems.foldl (fun sum item => sum + item.1) 0 / (commonItems.length : α)
    let meanB := commonItems.foldl (fun sum item => sum + item.2) 0 / (commonItems.length : α)
    let acc : α × α × α :=
      commonItems.foldl
        (fun acc item =>
          let diffA := item.1 - meanA
          let diffB := item.2 - meanB
          (acc.1 + diffA * diffB, acc.2.1 + diffA * diffA, acc.2.2 + diffB * diffB))
        (0, 0, 0)
    let numerator := acc.1
    let denomA := acc.2.1
    let denomB := acc.2.2
    if denomA = 0 ∨ denomB = 0 then 0
    else numerator / sqrt (denomA * denomB)

/-- The array `currentUserRatings` built at the start of
`getCollaborativeRecommendations` (script.js, lines 298-303): a zero array of
length `items.length` in which slot `item.id - 1` receives `ratings[item.id]`
whenever that value is truthy (present and not `0`). -/
def currentUserRatings (st : UserState α) : List α :=
  items.foldl
    (fun cur item =>
      match st.ratings item.id with
      | some r => if r ≠ 0 then cur.set (item.id - 1) r else cur
      | none => cur)
    (List.replicate items.length 0)

/-- The array `positiveSimilarities` of `getCollaborativeRecommendations`
(script.js, lines 309-317). -/
def positiveSimilarities (sqrt : α → α) (st : UserState α) : List (UserSimilarity α) :=
  let userSimilarities : List (UserSimilarity α) :=
    (exampleRatingsMatrix (α := α)).enum.map (fun p =>
      { userId := p.1, similarity := pearsonCorrelation sqrt (currentUserRatings st) p.2 })
  sort (fun a b => b.similarity - a.similarity)
    (userSimilarities.filter (fun user => decide (user.similarity > 0)))

/-- The array `predictions` of `getCollaborativeRecommendations` (script.js,
lines 323-349), before sorting and truncation. -/
def predictions (sqrt : α → α) (st : UserState α) : List (CollabResult α) :=
  items.enum.filterMap (fun p =>
    let index := p.1
    let item := p.2
    if (currentUserRatings st).getD index 0 > 0 then none
    else
      let sums : α × α :=
        (positiveSimilarities sqrt st).foldl
          (fun sums similarUser =>
            let rating := ((exampleRatingsMatrix (α := α)).getD similarUser.userId []).getD index 0
            if rating > 0 then
              (sums.1 + similarUser.similarity * rating, sums.2 + |similarUser.similarity|)
            else sums)
          (0, 0)
      let weightedSum := sums.1
      let similaritySum := sums.2
      if similaritySum > 0 then
        some { item := item, predictedRating := weightedSum / similaritySum }
      else none)

/-- Function `getCollaborativeRecommendations` (script.js, lines 296-355). -/
def getCollaborativeRecommendations (sqrt : α → α) (st : UserState α) :
    List (CollabResult α) :=
  if (currentUserRatings st).all (fun rating => decide (rating = 0)) then []
  else if (positiveSimilarities sqrt st).length = 0 then []
  else
    (sort (fun a b => b.predictedRating - a.predictedRating) (predictions sqrt st)).take 5

/-! ## User interaction handlers and storage

`saveUserState()` and `renderAll()`, called at the end of every handler, write
to `localStorage` and to the DOM only; they leave `userState` untouched and
are not part of the embedding. -/

/-- The method `Array.prototype.indexOf`: the first position of `x`, or `-1`. -/
def jsIndexOf (l : List Nat) (x : Nat) : Int :=
  if x ∈ l then (l.indexOf x : Int) else -1

/-- Function `resetUserState` (script.js, lines 137-144): the new value of
`userState`, whatever the old one was. -/
def resetUserState (_st : UserState α) : UserState α :=
  { likedItems := [], ratings := fun _ => none }

/-- Function `toggleLike` (script.js, lines 606-619): the new value of
`userState`.  `push` appends at the end, `splice(index, 1)` removes the entry
at position `index`. -/
def toggleLike (st : UserState α) (itemId : Nat) : UserState α :=
  let index := jsIndexOf st.likedItems itemId
  if index = -1 then
    { likedItems := st.likedItems ++ [itemId], ratings := st.ratings }
  else
    { likedItems := st.likedItems.eraseIdx index.toNat, ratings := st.ratings }

/-- Function `updateRating` (script.js, lines 626-642): the new value of
`userState`.  `delete ratings[itemId]` removes the key, the assignment sets
it. -/
def updateRating (st : UserState α) (itemId : Nat) (rating : α) : UserState α :=
  if rating = 0 then
    { likedItems := st.likedItems,
      ratings := fun key => if key = itemId then none else st.ratings key }
  else
    let ratings : Nat → Option α :=
      fun key => if key = itemId then some rating else st.ratings key
    if ¬ st.likedItems.contains itemId then
      { likedItems := st.likedItems ++ [itemId], ratings := ratings }
    else
      { likedItems := st.likedItems, ratings := ratings }

/-- The error kinds of the specification (section 7) that an operation of the
profile can raise. -/
inductive ProfileError where
  | invalidArgument
deriving DecidableEq

/-- How a call `updateRating(itemId, rating)` ends.  The body of the function
has no `throw` and no test on the range of `rating`: every call completes
normally with the updated state. -/
def updateRatingOutcome (st : UserState α) (itemId : Nat) (rating : α) :
    Except ProfileError (UserState α) :=
  Except.ok (updateRating st itemId rating)

/-- The profiles reachable from the empty profile, the initial value of
`userState` (script.js, lines 104-107), by calls of the three handlers that
write it. -/
inductive Reachable : UserState α → Prop where
  | initial : Reachable { likedItems := [], ratings := fun _ => none }
  | toggle (st : UserState α) (itemId : Nat) :
      Reachable st → Reachable (toggleLike st itemId)
  | rate (st : UserState α) (itemId : Nat) (rating : α) :
      Reachable st → Reachable (updateRating st itemId rating)
  | reset (st : UserState α) : Reachable st → Reachable (resetUserState st)

/-! ## Auxiliary definitions used in the statements -/

/-- The record that the loop of `getContentBasedRecommendations` pushes for a
catalog item that is not liked (script.js, lines 226-238). -/
def scoreItem (sqrt : α → α) (st : UserState α) (item : Item) : ContentResult α :=
  { item := item,
    score := cosineSimilarity sqrt (getUserPreferenceVector st) (itemToVector item),
    matchingTags :=
      (allTags.enum.filter (fun p =>
        decide ((getUserPreferenceVector st).getD p.1 0 > 0) &&
          decide ((itemToVector item : List α).getD p.1 0 > 0))).map Prod.snd }

/-- The array `itemScores` of `getContentBasedRecommendations` before sorting:
one record per catalog item whose id is not in `likedItems`, in catalog
order. -/
def itemScores (sqrt : α → α) (st : UserState α) : List (ContentResult α) :=
  (items.filter (fun item => !st.likedItems.contains item.id)).map (scoreItem sqrt st)

/-- The liked catalog items: for every entry of `likedItems`, in order, the
catalog item it resolves to (`items.find`), unresolvable ids being skipped. -/
def likedCatalogItems (st : UserState α) : List Item :=
  st.likedItems.filterMap (fun itemId => items.find? (fun item => item.id == itemId))

/-- Element-wise sum of a list of vectors of length `n`, position by position. -/
def vectorSum (n : Nat) (vs : List (List α)) : List α :=
  (List.range n).map (fun i => (vs.map (fun v => v.getD i 0)).sum)


/-- The value that `currentUserRatings` holds for item id `id`: `ratings[id]`
when it is truthy, `0` otherwise. -/
def ratingOrZero (st : UserState α) (id : Nat) : α :=
  match st.ratings id with
  | some r => if r ≠ 0 then r else 0
  | none => 0

/-- The pair `(weightedSum, similaritySum)` accumulated by the inner `forEach`
of `getCollaborativeRecommendations` for the item at position `index`
(script.js, lines 330-339). -/
def similaritySums (sqrt : α → α) (st : UserState α) (index : Nat) : α × α :=
  (positiveSimilarities sqrt st).foldl
    (fun sums similarUser =>
      let rating := ((exampleRatingsMatrix (α := α)).getD similarUser.userId []).getD index 0
      if rating > 0 then
        (sums.1 + similarUser.similarity * rating, sums.2 + |similarUser.similarity|)
      else sums)
    (0, 0)

/-- The raters that contribute to the prediction for the item in column
`index`, as the specification words it: the panel rows whose Pearson
correlation with the current user is `> 0` and whose rating for that item is
nonzero. -/
def contributingRaters (sqrt : α → α) (st : UserState α) (index : Nat) : List (List α) :=
  (exampleRatingsMatrix (α := α)).filter (fun row =>
    decide (pearsonCorrelation sqrt (currentUserRatings st) row > 0) &&
      decide (row.getD index 0 ≠ 0))

/-- The predicted rating as the specification words it:
`Σ (sim_r * rating_r) / Σ |sim_r|` over the contributing raters. -/
def specPredictedRating (sqrt : α → α) (st : UserState α) (index : Nat) : α :=
  ((contributingRaters sqrt st index).map (fun row =>
      pearsonCorrelation sqrt (currentUserRatings st) row * row.getD index 0)).sum /
    ((contributingRaters sqrt st index).map (fun row =>
      |pearsonCorrelation sqrt (currentUserRatings st) row|)).sum

/-- The array `commonItems` built by `pearsonCorrelation`: the pairs of
ratings at the positions where both series hold a value `> 0`. -/
def commonItems (userARatings userBRatings : List α) : List (α × α) :=
  (userARatings.zip userBRatings).filter (fun p => decide (p.1 > 0) && decide (p.2 > 0))

/-- The positions that are nonzero in both series ("common items" in the
words of the specification), as pairs of ratings. -/
def nonzeroInBoth (a b : List α) : List (α × α) :=
  (a.zip b).filter (fun p => decide (p.1 ≠ 0) && decide (p.2 ≠ 0))

/-- Mean of the first components of a list of pairs. -/
def meanFst (c : List (α × α)) : α := (c.map (fun p => p.1)).sum / (c.length : α)

/-- Mean of the second components of a list of pairs. -/
def meanSnd (c : List (α × α)) : α := (c.map (fun p => p.2)).sum / (c.length : α)

/-- The value `numerator` of `pearsonCorrelation` as a sum over the pairs. -/
def coMoment (c : List (α × α)) : α :=
  (c.map (fun p => (p.1 - meanFst c) * (p.2 - meanSnd c))).sum

/-- The value `denomA` of `pearsonCorrelation` as a sum over the pairs. -/
def sqDevFst (c : List (α × α)) : α :=
  (c.map (fun p => (p.1 - meanFst c) * (p.1 - meanFst c))).sum

/-- The value `denomB` of `pearsonCorrelation` as a sum over the pairs. -/
def sqDevSnd (c : List (α × α)) : α :=
  (c.map (fun p => (p.2 - meanSnd c) * (p.2 - meanSnd c))).sum

/-- The sum `Σ val * val` that `cosineSimilarity` takes the square root of. -/
def sumSquares (v : List α) : α := (v.map (fun val => val * val)).sum

end Numeric

/-! ## Evaluation instances -/

/-- Smallest natural number whose square is at least `n`; the exact square
root on perfect squares. -/
def natSqrt (n : Nat) : Nat :=
  ((List.range (n + 1)).find? (fun k => decide (n ≤ k * k))).getD 0

/-- A rational square root used to evaluate the recommenders on concrete
profiles: exact whenever numerator and denominator are perfect squares. -/
def ratSqrt (q : ℚ) : ℚ :=
  (natSqrt q.num.toNat : ℚ) / (natSqrt q.den : ℚ)

/-- A profile that likes the single item 3 and has no ratings. -/
def likesInception : UserState ℚ :=
  { likedItems := [3], ratings := fun _ => none }

/-- A profile that rated item 1 with 5 and item 2 with 4 (and so likes both). -/
def ratedTwo : UserState ℚ :=
  { likedItems := [1, 2],
    ratings := fun id => if id = 1 then some 5 else if id = 2 then some 4 else none }

/-- The empty profile. -/
def emptyProfile : UserState ℚ :=
  { likedItems := [], ratings := fun _ => none }

/-- A profile that likes items 1 to 5 and has rated item 2 with 3. -/
def likesFirstFive : UserState ℚ :=
  { likedItems := [1, 2, 3, 4, 5], ratings := fun id => if id = 2 then some 3 else none }

/-- The profile over the reals that likes items 1 to 5 and has no ratings. -/
def likesFirstFiveReal : UserState ℝ :=
  { likedItems := [1, 2, 3, 4, 5], ratings := fun _ => none }

/-- The profile over the reals that likes items 1, 3, 6, 8 and 10: item 4
shares no tag with them, item 2 shares two. -/
def likesAllButDrama : UserState ℝ :=
  { likedItems := [1, 3, 6, 8, 10], ratings := fun _ => none }

/-- The profile reached from the empty one by liking item 3 and then rating
item 5 with 4: it likes items 3 and 5. -/
def likedThenRated : UserState ℚ :=
  updateRating (toggleLike emptyProfile 3) 5 4

/-- The first content-based result for `likesInception`: item 1, score `3/4`. -/
def matrixForInception : ContentResult ℚ :=
  { item := items.getD 0 default, score := 3 / 4,
    matchingTags := ["sci-fi", "action", "thriller"] }

/-- The first collaborative result for `ratedTwo`: item 5, predicted rating 5. -/
def interstellarForRatedTwo : CollabResult ℚ :=
  { item := items.getD 4 default, predictedRating := 5 }

/-! ## The collaborative recommender in binary64 arithmetic

JavaScript numbers are IEEE 754 binary64 values and every `+`, `-`, `*`, `/`
and `Math.sqrt` rounds its exact result to the nearest such value, ties to
even.  This section repeats `pearsonCorrelation` and
`getCollaborativeRecommendations` with that rounding made explicit, on
rationals.  Overflow and `NaN` are not represented; the values met here lie
far inside the normal range. -/

namespace Binary64

/-- The rational `2 ^ e` for an integer exponent. -/
def twoPow (e : Int) : ℚ :=
  if 0 ≤ e then ((2 ^ e.toNat : Nat) : ℚ) else 1 / ((2 ^ (-e).toNat : Nat) : ℚ)

/-- Counts the halvings that bring `n` below `2`. -/
def log2Loop : Nat → Nat → Nat
  | 0, _ => 0
  | fuel + 1, n => if n < 2 then 0 else log2Loop fuel (n / 2) + 1

/-- Binary logarithm of a positive natural number, rounded down (numbers
below `2 ^ 4000`). -/
def natLog2 (n : Nat) : Nat := log2Loop 4000 n

/-- The binary exponent of a positive rational `q`: the integer `t` with
`2 ^ t ≤ q < 2 ^ (t + 1)`. -/
def floorLog2 (q : ℚ) : Int :=
  let t0 : Int := (natLog2 q.num.toNat : Int) - (natLog2 q.den : Int)
  if twoPow t0 ≤ q then t0 else t0 - 1

/-- Nearest integer to a non-negative rational, halves going to the even
neighbour. -/
def roundHalfEven (x : ℚ) : Int :=
  let f : Int := x.num / (x.den : Int)
  let r : ℚ := x - (f : ℚ)
  if r < 1 / 2 then f
  else if 1 / 2 < r then f + 1
  else if f % 2 = 0 then f
  else f + 1

/-- Rounding of an exact result to binary64: a 53-bit significand (fewer bits
below the exponent `-1022`), round to nearest, ties to even. -/
def roundDouble (q : ℚ) : ℚ :=
  if q = 0 then 0
  else
    let a : ℚ := if q < 0 then -q else q
    let e : Int := max (floorLog2 a - 52) (-1074)
    let m : Int := roundHalfEven (a / twoPow e)
    if q < 0 then -((m : ℚ) * twoPow e) else (m : ℚ) * twoPow e

/-- Newton iteration for the integer square root, from a start `x` above the
root. -/
def isqrtLoop : Nat → Nat → Nat → Nat
  | 0, _, x => x
  | fuel + 1, n, x =>
    let y := (x + n / x) / 2
    if y < x then isqrtLoop fuel n y else x

/-- Integer square root: the largest `s` with `s * s ≤ n`. -/
def isqrt (n : Nat) : Nat :=
  if n = 0 then 0 else isqrtLoop 200 n (2 ^ (natLog2 n / 2 + 1))

/-- The function `Math.sqrt` on a non-negative binary64 value: the exact square
root rounded to binary64 (round to nearest, ties to even). -/
def sqrt (q : ℚ) : ℚ :=
  if q ≤ 0 then 0
  else
    let e : Int := (floorLog2 q - 104) / 2
    let scaled : ℚ := q / twoPow (2 * e)
    let m : Nat := isqrt (scaled.num / (scaled.den : Int)).toNat
    let half : ℚ := ((m : ℚ) + 1 / 2) * ((m : ℚ) + 1 / 2)
    let up : Bool :=
      if scaled < half then false
      else if half < scaled then true
      else decide (m % 2 = 1)
    (if up then ((m : ℚ) + 1) else (m : ℚ)) * twoPow e

/-- Binary64 addition. -/
def add (a b : ℚ) : ℚ := roundDouble (a + b)

/-- Binary64 subtraction. -/
def sub (a b : ℚ) : ℚ := roundDouble (a - b)

/-- Binary64 multiplication. -/
def mul (a b : ℚ) : ℚ := roundDouble (a * b)

/-- Binary64 division. -/
def div (a b : ℚ) : ℚ := roundDouble (a / b)

/-- Function `pearsonCorrelation` (script.js, lines 257-290) with every
arithmetic operation rounded to binary64. -/
def pearsonCorrelation (userARatings userBRatings : List ℚ) : ℚ :=
  let commonItems := (userARatings.zip userBRatings).filter
    (fun p => decide (p.1 > 0) && decide (p.2 > 0))
  if commonItems.length < 2 then 0
  else
    let meanA := div (commonItems.foldl (fun sum item => add sum item.1) 0)
      (commonItems.length : ℚ)
    let meanB := div (commonItems.foldl (fun sum item => add sum item.2) 0)
      (commonItems.length : ℚ)
    let acc : ℚ × ℚ × ℚ :=
      commonItems.foldl
        (fun acc item =>
          let diffA := sub item.1 meanA
          let diffB := sub item.2 meanB
          (add acc.1 (mul diffA diffB), add acc.2.1 (mul diffA diffA),
            add acc.2.2 (mul diffB diffB)))
        (0, 0, 0)
    let numerator := acc.1
    let denomA := acc.2.1
    let denomB := acc.2.2
    if denomA = 0 ∨ denomB = 0 then 0
    else div numerator (sqrt (mul denomA denomB))

/-- The array `positiveSimilarities` of `getCollaborativeRecommendations`
(script.js, lines 309-317), in binary64. -/
def positiveSimilarities (st : UserState ℚ) : List (UserSimilarity ℚ) :=
  let userSimilarities : List (UserSimilarity ℚ) :=
    (exampleRatingsMatrix (α := ℚ)).enum.map (fun p =>
      { userId := p.1, similarity := pearsonCorrelation (currentUserRatings st) p.2 })
  RecSys.sort (fun a b => sub b.similarity a.similarity)
    (userSimilarities.filter (fun user => decide (user.similarity > 0)))

/-- The array `predictions` of `getCollaborativeRecommendations` (script.js,
lines 323-349), in binary64, before sorting and truncation. -/
def predictions (st : UserState ℚ) : List (CollabResult ℚ) :=
  items.enum.filterMap (fun p =>
    let index := p.1
    let item := p.2
    if (currentUserRatings st).getD index 0 > 0 then none
    else
      let sums : ℚ × ℚ :=
        (positiveSimilarities st).foldl
          (fun sums similarUser =>
            let rating := ((exampleRatingsMatrix (α := ℚ)).getD similarUser.userId []).getD index 0
            if rating > 0 then
              (add sums.1 (mul similarUser.similarity rating),
                add sums.2 |similarUser.similarity|)
            else sums)
          (0, 0)
      let weightedSum := sums.1
      let similaritySum := sums.2
      if similaritySum > 0 then
        some { item := item, predictedRating := div weightedSum similaritySum }
      else none)

/-- Function `getCollaborativeRecommendations` (script.js, lines 296-355) in
binary64. -/
def getCollaborativeRecommendations (st : UserState ℚ) : List (CollabResult ℚ) :=
  if (currentUserRatings st).all (fun rating => decide (rating = 0)) then []
  else if (positiveSimilarities st).length = 0 then []
  else
    (RecSys.sort (fun a b => sub b.predictedRating a.predictedRating) (predictions st)).take 5

/-- The raters that contribute to the prediction for the item in column
`index`, with the correlations the code computes in binary64: the panel rows
whose computed correlation with the current user is `> 0` and whose rating
for that item is nonzero. -/
def contributingRaters (st : UserState ℚ) (index : Nat) : List (List ℚ) :=
  (exampleRatingsMatrix (α := ℚ)).filter (fun row =>
    decide (pearsonCorrelation (currentUserRatings st) row > 0) &&
      decide (row.getD index 0 ≠ 0))

/-- The formula `Σ (sim_r * rating_r) / Σ |sim_r|` of the specification over
the contributing raters, evaluated without rounding on the correlations the
code computes. -/
def specPredictedRating (st : UserState ℚ) (index : Nat) : ℚ :=
  ((contributingRaters st index).map (fun row =>
      pearsonCorrelation (currentUserRatings st) row * row.getD index 0)).sum /
    ((contributingRaters st index).map (fun row =>
      |pearsonCorrelation (currentUserRatings st) row|)).sum

end Binary64

/-- A profile with the integer ratings `1: 1, 3: 5, 4: 4, 6: 2` (the rated
items are liked). -/
def ratedFour : UserState ℚ :=
  { likedItems := [1, 3, 4, 6],
    ratings := fun id =>
      if id = 1 then some 1 else if id = 3 then some 5 else if id = 4 then some 4
      else if id = 6 then some 2 else none }

/-- A profile with the integer ratings `1: 1, 2: 1, 3: 1, 4: 3, 7: 2` (the
rated items are liked). -/
def ratedFive : UserState ℚ :=
  { likedItems := [1, 2, 3, 4, 7],
    ratings := fun id =>
      if id = 1 then some 1 else if id = 2 then some 1 else if id = 3 then some 1
      else if id = 4 then some 3 else if id = 7 then some 2 else none }

/-! ## Sorting facts -/

section SortFacts

variable {α : Type} [LinearOrderedField α] {β : Type}

theorem sort_perm (cmp : β → β → α) (l : List β) : (sort cmp l).Perm l :=
  List.perm_insertionSort _ l

theorem mem_sort_iff (cmp : β → β → α) (l : List β) (x : β) : x ∈ sort cmp l ↔ x ∈ l :=
  (sort_perm cmp l).mem_iff

theorem length_sort (cmp : β → β → α) (l : List β) : (sort cmp l).length = l.length :=
  (sort_perm cmp l).length_eq

/-- Sorting with the comparator `(a, b) => key b - key a` leaves the keys in
non-increasing order. -/
theorem sort_desc_pairwise (key : β → α) (l : List β) :
    (sort (fun a b => key b - key a) l).Pairwise (fun a b => key b ≤ key a) := by
  have hrel : (fun a b : β => key b - key a ≤ 0) = (fun a b : β => key b ≤ key a) := by
    funext a b
    exact propext sub_nonpos
  haveI : IsTotal β (fun a b : β => key b - key a ≤ 0) :=
    ⟨fun a b => by simpa only [sub_nonpos] using le_total (key b) (key a)⟩
  haveI : IsTrans β (fun a b : β => key b - key a ≤ 0) :=
    ⟨fun a b c hab hbc => by
      simp only [sub_nonpos] at hab hbc ⊢
      exact le_trans hbc hab⟩
  have h := List.sorted_insertionSort (fun a b : β => key b - key a ≤ 0) l
  unfold sort
  exact List.Pairwise.imp (fun {a b} hab => by simpa only [sub_nonpos] using hab) h

theorem sort_desc_take_sorted (key : β → α) (l : List β) (n : Nat) :
    (((sort (fun a b => key b - key a) l).take n).map key).Sorted (fun x y => y ≤ x) := by
  unfold List.Sorted
  rw [List.pairwise_map]
  exact (sort_desc_pairwise key l).sublist (List.take_sublist n _)

end SortFacts

/-! ## Content-based recommender: exclusion, size, order -/

section ContentFacts

variable {α : Type} [LinearOrderedField α]

/-- Claim C1. No result of `getContentBasedRecommendations` carries an item
whose id occurs in `likedItems`, whatever the liked list and the ratings map
are. -/
theorem content_results_not_liked (sqrt : α → α) (st : UserState α)
    (r : ContentResult α) (hr : r ∈ getContentBasedRecommendations sqrt st) :
    r.item.id ∉ st.likedItems := by
  unfold getContentBasedRecommendations at hr
  simp only [] at hr
  split at hr
  · simp at hr
  · have hr2 := List.mem_of_mem_take hr
    rw [mem_sort_iff, List.mem_filterMap] at hr2
    obtain ⟨item, -, hitem⟩ := hr2
    split at hitem
    · simp at hitem
    · rename_i hnot
      simp only [Option.some.injEq] at hitem
      subst hitem
      simpa using hnot

/-- Claim C3. `getContentBasedRecommendations` returns at most 5 results and
their scores are non-increasing from first to last. -/
theorem content_results_at_most_five_sorted (sqrt : α → α) (st : UserState α) :
    (getContentBasedRecommendations sqrt st).length ≤ 5 ∧
      ((getContentBasedRecommendations sqrt st).map (fun r => r.score)).Sorted
        (fun x y => y ≤ x) := by
  unfold getContentBasedRecommendations
  simp only []
  split
  · simp
  · exact ⟨by simp [List.length_take], sort_desc_take_sorted _ _ 5⟩

theorem content_results_not_liked_witness :
    matrixForInception ∈ getContentBasedRecommendations ratSqrt likesInception ∧
      matrixForInception.item.id ∉ likesInception.likedItems :=
  ⟨by decide!, content_results_not_liked ratSqrt likesInception matrixForInception (by decide!)⟩

end ContentFacts

/-! ## Collaborative recommender: the rating vector -/

section CollabFacts

variable {α : Type} [LinearOrderedField α]

theorem set_getD_self (cur : List α) (k : Nat) : cur.set k (cur.getD k 0) = cur := by
  apply List.ext_getElem
  · simp
  · intro n h1 h2
    rw [List.getElem_set]
    split
    · subst_vars
      simp [List.getD_eq_getElem?_getD, List.getElem?_eq_getElem h2]
    · rfl

/-- One step of the loop that fills `currentUserRatings`, written as a single
assignment to slot `k`. -/
theorem set_step (st : UserState α) (cur : List α) (k id : Nat) :
    (match st.ratings id with
      | some r => if r ≠ 0 then cur.set k r else cur
      | none => cur) =
    cur.set k (match st.ratings id with
      | some r => if r ≠ 0 then r else cur.getD k 0
      | none => cur.getD k 0) := by
  cases h : st.ratings id with
  | none => exact (set_getD_self cur k).symm
  | some r =>
    by_cases hr : r = 0
    · simp only [hr, ne_eq, not_true_eq_false, if_false]
      exact (set_getD_self cur k).symm
    · simp only [hr, ne_eq, not_false_eq_true, if_true]

/-- Closed form of `currentUserRatings`: slot `i` holds the truthy rating of
item id `i + 1`, or `0`. -/
theorem currentUserRatings_eq (st : UserState α) :
    currentUserRatings st = (List.range 10).map (fun i => ratingOrZero st (i + 1)) := by
  unfold currentUserRatings
  simp only [items, List.foldl, set_step]
  simp [List.replicate, List.range, List.range.loop, ratingOrZero]

/-- In the catalog the item at position `index` has id `index + 1`. -/
theorem enum_items_id : ∀ p ∈ items.enum, p.1 < 10 ∧ p.2.id = p.1 + 1 := by
  decide

theorem currentUserRatings_getD (st : UserState α) (index : Nat) (item : Item)
    (h : (index, item) ∈ items.enum) :
    (currentUserRatings st).getD index 0 = ratingOrZero st item.id := by
  obtain ⟨hlt, hid⟩ := enum_items_id (index, item) h
  simp only at hlt hid
  rw [currentUserRatings_eq, hid]
  simp [List.getD_eq_getElem?_getD, List.getElem?_map, List.getElem?_range hlt]

theorem ratingOrZero_none (st : UserState α) (id : Nat) (h : st.ratings id = none) :
    ratingOrZero st id = 0 := by
  simp [ratingOrZero, h]

theorem ratingOrZero_pos (st : UserState α) (id : Nat) (r : α) (h : st.ratings id = some r)
    (hr : 0 < r) : 0 < ratingOrZero st id := by
  simp [ratingOrZero, h, hr.ne', hr]

/-! ## Collaborative recommender: the candidate list -/

theorem mem_predictions_iff (sqrt : α → α) (st : UserState α) (p : CollabResult α) :
    p ∈ predictions sqrt st ↔
      ∃ index item, (index, item) ∈ items.enum ∧
        ¬ ((currentUserRatings st).getD index 0 > 0) ∧
        (similaritySums sqrt st index).2 > 0 ∧
        p = { item := item,
              predictedRating :=
                (similaritySums sqrt st index).1 / (similaritySums sqrt st index).2 } := by
  unfold predictions
  simp only [List.mem_filterMap]
  constructor
  · rintro ⟨⟨index, item⟩, hmem, h⟩
    simp only [] at h
    split at h
    · simp at h
    · rename_i hcur
      split at h
      · rename_i hsum
        simp only [Option.some.injEq] at h
        exact ⟨index, item, hmem, hcur, hsum, h.symm⟩
      · simp at h
  · rintro ⟨index, item, hmem, hcur, hsum, hp⟩
    refine ⟨(index, item), hmem, ?_⟩
    simp only []
    rw [if_neg hcur]
    have hsum2 : (similaritySums sqrt st index).2 > 0 := hsum
    unfold similaritySums at hsum2 hp
    rw [if_pos hsum2, hp]

theorem mem_collab_mem_predictions (sqrt : α → α) (st : UserState α) (p : CollabResult α)
    (hp : p ∈ getCollaborativeRecommendations sqrt st) : p ∈ predictions sqrt st := by
  unfold getCollaborativeRecommendations at hp
  split at hp
  · simp at hp
  · split at hp
    · simp at hp
    · exact (mem_sort_iff _ _ _).1 (List.mem_of_mem_take hp)

/-- Claim C2. When every rating held by the `ratings` map is an integer in
`[1, 5]`, no result of `getCollaborativeRecommendations` carries a catalog item
for which the map holds a rating. -/
theorem collab_results_not_rated (sqrt : α → α) (st : UserState α)
    (hst : ∀ id r, st.ratings id = some r → ∃ n : ℕ, 1 ≤ n ∧ n ≤ 5 ∧ r = (n : α))
    (p : CollabResult α) (hp : p ∈ getCollaborativeRecommendations sqrt st) :
    st.ratings p.item.id = none := by
  obtain ⟨index, item, hmem, hcur, -, rfl⟩ :=
    (mem_predictions_iff sqrt st p).1 (mem_collab_mem_predictions sqrt st p hp)
  rw [currentUserRatings_getD st index item hmem] at hcur
  cases hrat : st.ratings item.id with
  | none => rfl
  | some r =>
    exfalso
    obtain ⟨n, hn1, -, rfl⟩ := hst item.id r hrat
    apply hcur
    apply ratingOrZero_pos st item.id _ hrat
    exact_mod_cast hn1

theorem collab_results_not_rated_witness :
    (∀ id r, ratedTwo.ratings id = some r → ∃ n : ℕ, 1 ≤ n ∧ n ≤ 5 ∧ r = (n : ℚ)) ∧
      interstellarForRatedTwo ∈ getCollaborativeRecommendations ratSqrt ratedTwo ∧
      ratedTwo.ratings interstellarForRatedTwo.item.id = none :=
  have hst : ∀ id r, ratedTwo.ratings id = some r → ∃ n : ℕ, 1 ≤ n ∧ n ≤ 5 ∧ r = (n : ℚ) := by
    intro id r h
    unfold ratedTwo at h
    simp only at h
    split at h
    · exact ⟨5, by decide, by decide, by simpa using h.symm⟩
    · split at h
      · exact ⟨4, by decide, by decide, by simpa using h.symm⟩
      · simp at h
  ⟨hst, by decide!,
    collab_results_not_rated ratSqrt ratedTwo hst interstellarForRatedTwo (by decide!)⟩

/-- Claim C4. `getCollaborativeRecommendations` returns at most 5 results and
their `predictedRating` values are non-increasing from first to last. -/
theorem collab_results_at_most_five_sorted (sqrt : α → α) (st : UserState α) :
    (getCollaborativeRecommendations sqrt st).length ≤ 5 ∧
      ((getCollaborativeRecommendations sqrt st).map (fun r => r.predictedRating)).Sorted
        (fun x y => y ≤ x) := by
  unfold getCollaborativeRecommendations
  split
  · simp
  · split
    · simp
    · exact ⟨by simp [List.length_take], sort_desc_take_sorted _ _ 5⟩

/-! ## Collaborative recommender: the prediction formula -/

/-- A conditional accumulation of two running sums is the pair of the sums
over the elements that pass the test. -/
theorem foldl_cond_pair {γ : Type} (c : γ → Prop) [DecidablePred c] (f g : γ → α)
    (l : List γ) (init : α × α) :
    l.foldl (fun sums x => if c x then (sums.1 + f x, sums.2 + g x) else sums) init =
      (init.1 + ((l.filter (fun x => decide (c x))).map f).sum,
        init.2 + ((l.filter (fun x => decide (c x))).map g).sum) := by
  induction l generalizing init with
  | nil => simp
  | cons x xs ih =>
    rw [List.foldl_cons, ih]
    by_cases hx : c x
    · simp [hx, List.filter_cons, add_assoc]
    · simp [hx, List.filter_cons]

/-- Every panel rating is non-negative, so "rated" (`> 0`) and "nonzero"
coincide on the panel. -/
theorem exampleRatingsMatrix_nonneg :
    ∀ row ∈ (exampleRatingsMatrix (α := α)), ∀ i : Nat, 0 ≤ row.getD i 0 := by
  intro row hrow i
  have hall : ∀ x ∈ row, (0 : α) ≤ x := by
    simp only [exampleRatingsMatrix, List.mem_cons, List.mem_singleton, List.not_mem_nil,
      or_false] at hrow
    rcases hrow with h | h | h | h | h <;> subst h <;> intro x hx <;>
      simp only [List.mem_cons, List.mem_singleton, List.not_mem_nil, or_false] at hx <;>
      rcases hx with h | h | h | h | h | h | h | h | h | h <;> subst h <;> norm_num
  rw [List.getD_eq_getElem?_getD]
  cases hget : row[i]? with
  | none => simp
  | some x => simpa using hall x (List.getElem?_mem hget)

theorem enum_getD_row {γ : Type} (m : List (List γ)) (p : Nat × List γ) (hp : p ∈ m.enum) :
    m.getD p.1 [] = p.2 := by
  have h := List.mem_enum_iff_getElem?.1 hp
  simp [List.getD_eq_getElem?_getD, h]

/-- The sums accumulated by the code are the sums, over the contributing
raters, of `sim * rating` and of `|sim|`. -/
theorem similaritySums_eq (sqrt : α → α) (st : UserState α) (index : Nat) :
    similaritySums sqrt st index =
      (((contributingRaters sqrt st index).map (fun row =>
          pearsonCorrelation sqrt (currentUserRatings st) row * row.getD index 0)).sum,
        ((contributingRaters sqrt st index).map (fun row =>
          |pearsonCorrelation sqrt (currentUserRatings st) row|)).sum) := by
  unfold similaritySums
  simp only []
  rw [foldl_cond_pair
    (fun su : UserSimilarity α =>
      ((exampleRatingsMatrix (α := α)).getD su.userId []).getD index 0 > 0)
    (fun su => su.similarity *
      ((exampleRatingsMatrix (α := α)).getD su.userId []).getD index 0)
    (fun su => |su.similarity|)]
  unfold positiveSimilarities
  simp only [zero_add]
  -- the order in which the raters are visited does not matter
  have hperm := fun (c : UserSimilarity α → Bool) (l : List (UserSimilarity α)) =>
    (sort_perm (fun a b : UserSimilarity α => b.similarity - a.similarity) l).filter c
  rw [((hperm _ _).map _).sum_eq, ((hperm _ _).map _).sum_eq]
  -- both sides range over the same rows of the panel
  have key : ∀ F : α → α → α,
      List.map (fun su : UserSimilarity α => F su.similarity
          (((exampleRatingsMatrix (α := α)).getD su.userId []).getD index 0))
        (List.filter (fun su : UserSimilarity α =>
            decide (((exampleRatingsMatrix (α := α)).getD su.userId []).getD index 0 > 0))
          (List.filter (fun user : UserSimilarity α => decide (user.similarity > 0))
            (List.map (fun p : Nat × List α =>
                ({ userId := p.1,
                   similarity := pearsonCorrelation sqrt (currentUserRatings st) p.2 } :
                  UserSimilarity α))
              (exampleRatingsMatrix (α := α)).enum))) =
      List.map (fun row => F (pearsonCorrelation sqrt (currentUserRatings st) row)
          (row.getD index 0)) (contributingRaters sqrt st index) := by
    intro F
    unfold contributingRaters
    conv_rhs => rw [← List.enum_map_snd (exampleRatingsMatrix (α := α))]
    rw [List.filter_filter, List.filter_map, List.filter_map, List.map_map, List.map_map]
    have hfilter :
        List.filter
            ((fun su : UserSimilarity α =>
                decide (((exampleRatingsMatrix (α := α)).getD su.userId []).getD index 0 > 0) &&
                  decide (su.similarity > 0)) ∘
              fun p : Nat × List α =>
                ({ userId := p.1,
                   similarity := pearsonCorrelation sqrt (currentUserRatings st) p.2 } :
                  UserSimilarity α))
            (exampleRatingsMatrix (α := α)).enum =
          List.filter
            ((fun row : List α =>
                decide (pearsonCorrelation sqrt (currentUserRatings st) row > 0) &&
                  decide (row.getD index 0 ≠ 0)) ∘ Prod.snd)
            (exampleRatingsMatrix (α := α)).enum := by
      apply List.filter_congr
      intro p hp
      have hrow := enum_getD_row _ p hp
      have hmem : p.2 ∈ (exampleRatingsMatrix (α := α)) := by
        rw [← List.enum_map_snd (exampleRatingsMatrix (α := α))]
        exact List.mem_map_of_mem _ hp
      have hnn := exampleRatingsMatrix_nonneg p.2 hmem index
      simp only [Function.comp, hrow]
      rw [Bool.and_comm]
      congr 1
      rw [decide_eq_decide]
      exact ⟨fun h => ne_of_gt h, fun h => lt_of_le_of_ne hnn (Ne.symm h)⟩
    rw [hfilter]
    apply List.map_congr_left
    intro p hp
    have hrow := enum_getD_row _ p (List.mem_of_mem_filter hp)
    simp only [Function.comp, hrow]
  have k1 := key (fun s r => s * r)
  have k2 := key (fun s _ => |s|)
  simp only [] at k1 k2
  rw [k1, k2]

/-- The sum of `|sim|` over the contributing raters is positive exactly when
there is a contributing rater. -/
theorem similaritySum_pos_iff (sqrt : α → α) (st : UserState α) (index : Nat) :
    (similaritySums sqrt st index).2 > 0 ↔ contributingRaters sqrt st index ≠ [] := by
  rw [similaritySums_eq]
  simp only []
  constructor
  · intro h hnil
    rw [hnil] at h
    simp at h
  · intro hne
    apply List.sum_pos
    · intro x hx
      obtain ⟨row, hrow, rfl⟩ := List.mem_map.1 hx
      unfold contributingRaters at hrow
      have := (List.mem_filter.1 hrow).2
      simp only [Bool.and_eq_true, decide_eq_true_eq] at this
      exact abs_pos.2 (ne_of_gt this.1)
    · simpa using hne

/-- Claim C5, amended. In exact arithmetic (over the reals, rounding
ignored), every result of `getCollaborativeRecommendations` carries a
catalog item and its `predictedRating` is `Σ (sim_r * rating_r) / Σ |sim_r|`
over exactly the panel raters with positive Pearson correlation and a nonzero
rating for that item (column `id - 1` of the panel); and a catalog item the
user has not rated is a prediction candidate (an element of `predictions`,
before the top-5 cut) if and only if at least one such rater exists. -/
theorem collab_prediction_formula (sqrt : α → α) (st : UserState α) :
    (∀ p ∈ getCollaborativeRecommendations sqrt st,
        p.item ∈ items ∧ p.predictedRating = specPredictedRating sqrt st (p.item.id - 1)) ∧
      (∀ index item, items.get? index = some item → st.ratings item.id = none →
        (item ∈ (predictions sqrt st).map (fun p => p.item) ↔
          contributingRaters sqrt st index ≠ [])) := by
  constructor
  · intro p hp
    obtain ⟨index, item, hmem, -, -, rfl⟩ :=
      (mem_predictions_iff sqrt st p).1 (mem_collab_mem_predictions sqrt st p hp)
    obtain ⟨-, hid⟩ := enum_items_id (index, item) hmem
    simp only at hid
    refine ⟨?_, ?_⟩
    · have := List.mem_map_of_mem Prod.snd hmem
      rwa [List.enum_map_snd] at this
    · simp only [hid, Nat.add_sub_cancel]
      rw [similaritySums_eq]
      rfl
  · intro index item hget hnone
    have hmem : (index, item) ∈ items.enum := List.mk_mem_enum_iff_getElem?.2 (by simpa using hget)
    obtain ⟨-, hid⟩ := enum_items_id (index, item) hmem
    simp only at hid
    rw [← similaritySum_pos_iff, List.mem_map]
    constructor
    · rintro ⟨p, hp, rfl⟩
      obtain ⟨index2, item2, hmem2, -, hsum, rfl⟩ := (mem_predictions_iff sqrt st p).1 hp
      obtain ⟨-, hid2⟩ := enum_items_id (index2, item2) hmem2
      simp only at hid2
      have : index2 = index := by
        simp only at hid
        omega
      rwa [this] at hsum
    · intro hsum
      refine ⟨_, (mem_predictions_iff sqrt st _).2 ⟨index, item, hmem, ?_, hsum, rfl⟩, rfl⟩
      rw [currentUserRatings_getD st index item hmem, ratingOrZero_none st _ hnone]
      exact lt_irrefl 0

theorem collab_prediction_formula_witness :
    interstellarForRatedTwo ∈ getCollaborativeRecommendations ratSqrt ratedTwo ∧
      interstellarForRatedTwo.predictedRating =
        specPredictedRating ratSqrt ratedTwo (interstellarForRatedTwo.item.id - 1) ∧
      items.get? 4 = some interstellarForRatedTwo.item ∧
      ratedTwo.ratings interstellarForRatedTwo.item.id = none ∧
      (interstellarForRatedTwo.item ∈ (predictions ratSqrt ratedTwo).map (fun p => p.item) ↔
        contributingRaters ratSqrt ratedTwo 4 ≠ []) :=
  ⟨by decide!,
    ((collab_prediction_formula ratSqrt ratedTwo).1 interstellarForRatedTwo (by decide!)).2,
    by decide!, by decide!,
    (collab_prediction_formula ratSqrt ratedTwo).2 4 interstellarForRatedTwo.item
      (by decide!) (by decide!)⟩

end CollabFacts

/-! ## Pearson correlation -/

section PearsonFacts

variable {α : Type} [LinearOrderedField α]

theorem foldl_add_map {γ : Type} (f : γ → α) (l : List γ) (init : α) :
    l.foldl (fun sum x => sum + f x) init = init + (l.map f).sum := by
  induction l generalizing init with
  | nil => simp
  | cons x xs ih => rw [List.foldl_cons, ih]; simp [add_assoc]

theorem foldl_add_triple {γ : Type} (f g h : γ → α) (l : List γ) (init : α × α × α) :
    l.foldl (fun acc x => (acc.1 + f x, acc.2.1 + g x, acc.2.2 + h x)) init =
      (init.1 + (l.map f).sum, init.2.1 + (l.map g).sum, init.2.2 + (l.map h).sum) := by
  induction l generalizing init with
  | nil => simp
  | cons x xs ih => rw [List.foldl_cons, ih]; simp [add_assoc]

/-- Function `pearsonCorrelation` with its loops written as sums over
`commonItems`. -/
theorem pearsonCorrelation_eq (sqrt : α → α) (a b : List α) :
    pearsonCorrelation sqrt a b =
      if (commonItems a b).length < 2 then 0
      else if sqDevFst (commonItems a b) = 0 ∨ sqDevSnd (commonItems a b) = 0 then 0
      else coMoment (commonItems a b) /
        sqrt (sqDevFst (commonItems a b) * sqDevSnd (commonItems a b)) := by
  unfold pearsonCorrelation
  simp only [foldl_add_map, foldl_add_triple, zero_add]
  rfl

/-! ### Symmetry -/

theorem commonItems_swap (a b : List α) :
    commonItems b a = (commonItems a b).map Prod.swap := by
  unfold commonItems
  rw [← List.zip_swap a b, List.filter_map]
  congr 1
  apply List.filter_congr
  intro p _
  simp [Function.comp, Bool.and_comm]

theorem meanFst_swap (c : List (α × α)) : meanFst (c.map Prod.swap) = meanSnd c := by
  unfold meanFst meanSnd
  rw [List.map_map, List.length_map]
  rfl

theorem meanSnd_swap (c : List (α × α)) : meanSnd (c.map Prod.swap) = meanFst c := by
  unfold meanFst meanSnd
  rw [List.map_map, List.length_map]
  rfl

theorem coMoment_swap (c : List (α × α)) : coMoment (c.map Prod.swap) = coMoment c := by
  unfold coMoment
  rw [meanFst_swap, meanSnd_swap, List.map_map]
  congr 1
  apply List.map_congr_left
  intro p _
  simp [Function.comp, mul_comm]

theorem sqDevFst_swap (c : List (α × α)) : sqDevFst (c.map Prod.swap) = sqDevSnd c := by
  unfold sqDevFst sqDevSnd
  rw [meanFst_swap, List.map_map]
  rfl

theorem sqDevSnd_swap (c : List (α × α)) : sqDevSnd (c.map Prod.swap) = sqDevFst c := by
  unfold sqDevFst sqDevSnd
  rw [meanSnd_swap, List.map_map]
  rfl

/-- Claim C6. `pearsonCorrelation` is symmetric in its two rating series. -/
theorem pearsonCorrelation_symm (sqrt : α → α) (a b : List α) :
    pearsonCorrelation sqrt a b = pearsonCorrelation sqrt b a := by
  rw [pearsonCorrelation_eq sqrt a b, pearsonCorrelation_eq sqrt b a, commonItems_swap a b,
    coMoment_swap, sqDevFst_swap, sqDevSnd_swap, List.length_map,
    mul_comm (sqDevSnd (commonItems a b))]
  simp only [or_comm]

/-! ### Zero fallbacks -/

theorem commonItems_sublist_nonzeroInBoth (a b : List α) :
    (commonItems a b).Sublist (nonzeroInBoth a b) := by
  unfold commonItems nonzeroInBoth
  have h : (a.zip b).filter (fun p => decide (p.1 > 0) && decide (p.2 > 0)) =
      ((a.zip b).filter (fun p => decide (p.1 ≠ 0) && decide (p.2 ≠ 0))).filter
        (fun p => decide (p.1 > 0) && decide (p.2 > 0)) := by
    rw [List.filter_filter]
    apply List.filter_congr
    intro p _
    by_cases h1 : p.1 > 0 <;> by_cases h2 : p.2 > 0 <;> simp [h1, h2, ne_of_gt]
  rw [h]
  exact List.filter_sublist _

theorem pearson_zero_of_few_common (sqrt : α → α) (a b : List α)
    (h : (commonItems a b).length < 2) : pearsonCorrelation sqrt a b = 0 := by
  rw [pearsonCorrelation_eq, if_pos h]

theorem meanFst_of_const (c : List (α × α)) (v : α) (hne : c ≠ [])
    (h : ∀ p ∈ c, p.1 = v) : meanFst c = v := by
  have hmap : c.map (fun p => p.1) = List.replicate c.length v := by
    rw [List.eq_replicate_iff]
    refine ⟨by simp, ?_⟩
    intro x hx
    obtain ⟨p, hp, rfl⟩ := List.mem_map.1 hx
    exact h p hp
  have hlen : (c.length : α) ≠ 0 := by
    have : c.length ≠ 0 := fun h0 => hne (List.length_eq_zero.1 h0)
    exact_mod_cast this
  unfold meanFst
  rw [hmap, List.sum_replicate, nsmul_eq_mul, mul_div_cancel_left₀ _ hlen]

theorem sqDevFst_of_const (c : List (α × α)) (h : ∀ p ∈ c, ∀ q ∈ c, p.1 = q.1) :
    sqDevFst c = 0 := by
  cases c with
  | nil => simp [sqDevFst]
  | cons p0 t =>
    have hmean := meanFst_of_const (p0 :: t) p0.1 (by simp)
      (fun p hp => h p hp p0 (List.mem_cons_self _ _))
    unfold sqDevFst
    apply List.sum_eq_zero
    intro x hx
    obtain ⟨p, hp, rfl⟩ := List.mem_map.1 hx
    rw [hmean, h p hp p0 (List.mem_cons_self _ _)]
    simp

theorem pearson_zero_of_const_fst (sqrt : α → α) (a b : List α)
    (h : ∀ p ∈ commonItems a b, ∀ q ∈ commonItems a b, p.1 = q.1) :
    pearsonCorrelation sqrt a b = 0 := by
  rw [pearsonCorrelation_eq]
  split
  · rfl
  · rw [if_pos (Or.inl (sqDevFst_of_const _ h))]

theorem sqDevSnd_of_const (c : List (α × α)) (h : ∀ p ∈ c, ∀ q ∈ c, p.2 = q.2) :
    sqDevSnd c = 0 := by
  rw [← sqDevFst_swap]
  apply sqDevFst_of_const
  intro p hp q hq
  obtain ⟨p2, hp2, rfl⟩ := List.mem_map.1 hp
  obtain ⟨q2, hq2, rfl⟩ := List.mem_map.1 hq
  exact h p2 hp2 q2 hq2

theorem pearson_zero_of_const_snd (sqrt : α → α) (a b : List α)
    (h : ∀ p ∈ commonItems a b, ∀ q ∈ commonItems a b, p.2 = q.2) :
    pearsonCorrelation sqrt a b = 0 := by
  rw [pearsonCorrelation_eq]
  split
  · rfl
  · rw [if_pos (Or.inr (sqDevSnd_of_const _ h))]

/-- Claim C10. `pearsonCorrelation a b` is exactly `0` whenever fewer than two
positions are nonzero in both series, whenever the values of `a` at the
positions that are nonzero in both series are all equal, and whenever the
values of `b` at those positions are all equal. -/
theorem pearson_zero_fallbacks (sqrt : α → α) (a b : List α) :
    ((nonzeroInBoth a b).length < 2 → pearsonCorrelation sqrt a b = 0) ∧
      ((∀ p ∈ nonzeroInBoth a b, ∀ q ∈ nonzeroInBoth a b, p.1 = q.1) →
        pearsonCorrelation sqrt a b = 0) ∧
      ((∀ p ∈ nonzeroInBoth a b, ∀ q ∈ nonzeroInBoth a b, p.2 = q.2) →
        pearsonCorrelation sqrt a b = 0) := by
  have hsub := commonItems_sublist_nonzeroInBoth a b
  refine ⟨?_, ?_, ?_⟩
  · intro h
    exact pearson_zero_of_few_common sqrt a b (lt_of_le_of_lt hsub.length_le h)
  · intro h
    exact pearson_zero_of_const_fst sqrt a b
      (fun p hp q hq => h p (hsub.subset hp) q (hsub.subset hq))
  · intro h
    exact pearson_zero_of_const_snd sqrt a b
      (fun p hp q hq => h p (hsub.subset hp) q (hsub.subset hq))

theorem pearson_zero_fallbacks_witness :
    ((nonzeroInBoth ([5, 3, 0] : List ℚ) [0, 4, 2]).length < 2 ∧
        pearsonCorrelation ratSqrt [5, 3, 0] [0, 4, 2] = 0) ∧
      ((∀ p ∈ nonzeroInBoth ([3, 3, 3] : List ℚ) [1, 2, 5],
          ∀ q ∈ nonzeroInBoth ([3, 3, 3] : List ℚ) [1, 2, 5], p.1 = q.1) ∧
        pearsonCorrelation ratSqrt [3, 3, 3] [1, 2, 5] = 0) ∧
      ((∀ p ∈ nonzeroInBoth ([1, 2, 5] : List ℚ) [4, 4, 4],
          ∀ q ∈ nonzeroInBoth ([1, 2, 5] : List ℚ) [4, 4, 4], p.2 = q.2) ∧
        pearsonCorrelation ratSqrt [1, 2, 5] [4, 4, 4] = 0) :=
  ⟨⟨by decide!, (pearson_zero_fallbacks ratSqrt [5, 3, 0] [0, 4, 2]).1 (by decide!)⟩,
    ⟨by decide!, (pearson_zero_fallbacks ratSqrt [3, 3, 3] [1, 2, 5]).2.1 (by decide!)⟩,
    ⟨by decide!, (pearson_zero_fallbacks ratSqrt [1, 2, 5] [4, 4, 4]).2.2 (by decide!)⟩⟩

/-! ### Range over the reals -/

/-- The Cauchy-Schwarz inequality for sums over a list. -/
theorem list_sum_mul_sq_le {γ : Type} (l : List γ) (f g : γ → ℝ) :
    ((l.map (fun x => f x * g x)).sum) ^ 2 ≤
      (l.map (fun x => f x * f x)).sum * (l.map (fun x => g x * g x)).sum := by
  rw [← Fin.sum_univ_get' l (fun x => f x * g x), ← Fin.sum_univ_get' l (fun x => f x * f x),
    ← Fin.sum_univ_get' l (fun x => g x * g x)]
  have h := Finset.sum_mul_sq_le_sq_mul_sq Finset.univ
    (fun i : Fin l.length => f l[i.1]) (fun i : Fin l.length => g l[i.1])
  simpa [sq] using h

theorem list_sum_mul_self_nonneg {γ : Type} (l : List γ) (f : γ → ℝ) :
    0 ≤ (l.map (fun x => f x * f x)).sum := by
  apply List.sum_nonneg
  intro x hx
  obtain ⟨y, -, rfl⟩ := List.mem_map.1 hx
  exact mul_self_nonneg _

/-- Claim C7. Over the reals (with `Math.sqrt` the real square root) the value
of `pearsonCorrelation a b` lies in `[-1, 1]` for all rating series. -/
theorem pearsonCorrelation_mem_Icc (a b : List ℝ) :
    -1 ≤ pearsonCorrelation Real.sqrt a b ∧ pearsonCorrelation Real.sqrt a b ≤ 1 := by
  rw [pearsonCorrelation_eq]
  split
  · constructor <;> norm_num
  · split
    · constructor <;> norm_num
    · rename_i hden
      push_neg at hden
      have hA : 0 ≤ sqDevFst (commonItems a b) :=
        list_sum_mul_self_nonneg (commonItems a b)
          (fun p : ℝ × ℝ => p.1 - meanFst (commonItems a b))
      have hB : 0 ≤ sqDevSnd (commonItems a b) :=
        list_sum_mul_self_nonneg (commonItems a b)
          (fun p : ℝ × ℝ => p.2 - meanSnd (commonItems a b))
      have hprod : 0 < sqDevFst (commonItems a b) * sqDevSnd (commonItems a b) :=
        mul_pos (lt_of_le_of_ne hA (Ne.symm hden.1)) (lt_of_le_of_ne hB (Ne.symm hden.2))
      have hsqrt := Real.sqrt_pos.2 hprod
      have hcs : (coMoment (commonItems a b)) ^ 2 ≤
          sqDevFst (commonItems a b) * sqDevSnd (commonItems a b) :=
        list_sum_mul_sq_le (commonItems a b) (fun p => p.1 - meanFst (commonItems a b))
          (fun p => p.2 - meanSnd (commonItems a b))
      have habs := Real.abs_le_sqrt hcs
      have hle : |coMoment (commonItems a b) /
          Real.sqrt (sqDevFst (commonItems a b) * sqDevSnd (commonItems a b))| ≤ 1 := by
        rw [abs_div, abs_of_pos hsqrt]
        exact (div_le_one hsqrt).2 habs
      exact abs_le.1 hle

end PearsonFacts

/-! ## Cosine similarity -/

section CosineFacts

variable {α : Type} [LinearOrderedField α]

/-- Function `cosineSimilarity` with its loops written as sums. -/
theorem cosineSimilarity_eq (sqrt : α → α) (vecA vecB : List α) :
    cosineSimilarity sqrt vecA vecB =
      if sqrt (sumSquares vecA) = 0 ∨ sqrt (sumSquares vecB) = 0 then 0
      else ((vecA.zip vecB).map (fun p => p.1 * p.2)).sum /
        (sqrt (sumSquares vecA) * sqrt (sumSquares vecB)) := by
  unfold cosineSimilarity sumSquares
  simp only [foldl_add_map, zero_add]

theorem zip_self_map_mul (v : List α) :
    ((v.zip v).map (fun p => p.1 * p.2)).sum = sumSquares v := by
  unfold sumSquares
  induction v with
  | nil => rfl
  | cons x xs ih => simp [ih]

theorem sumSquares_of_all_zero (v : List α) (h : ∀ x ∈ v, x = 0) : sumSquares v = 0 := by
  unfold sumSquares
  apply List.sum_eq_zero
  intro y hy
  obtain ⟨x, hx, rfl⟩ := List.mem_map.1 hy
  rw [h x hx, mul_zero]

theorem sumSquares_pos (v : List α) (h : ∃ x ∈ v, x ≠ 0) : 0 < sumSquares v := by
  unfold sumSquares
  induction v with
  | nil => simp at h
  | cons y ys ih =>
    have hnn : 0 ≤ (ys.map (fun val => val * val)).sum := by
      apply List.sum_nonneg
      intro z hz
      obtain ⟨w, -, rfl⟩ := List.mem_map.1 hz
      exact mul_self_nonneg _
    rw [List.map_cons, List.sum_cons]
    by_cases hy : y = 0
    · obtain ⟨x, hx, hx0⟩ := h
      rcases List.mem_cons.1 hx with rfl | hx
      · exact absurd hy hx0
      · have := ih ⟨x, hx, hx0⟩
        rw [hy]
        simpa using this
    · have : 0 < y * y := mul_self_pos.2 hy
      linarith

/-- Claim C8. Over the reals, `cosineSimilarity v v = 1` for every vector `v`
with at least one nonzero entry. -/
theorem cosineSimilarity_self (v : List ℝ) (h : ∃ x ∈ v, x ≠ 0) :
    cosineSimilarity Real.sqrt v v = 1 := by
  have hpos := sumSquares_pos v h
  have hsqrt : Real.sqrt (sumSquares v) ≠ 0 := (Real.sqrt_pos.2 hpos).ne'
  rw [cosineSimilarity_eq, if_neg (by simp [hsqrt]), zip_self_map_mul,
    Real.mul_self_sqrt hpos.le]
  exact div_self hpos.ne'

theorem cosineSimilarity_self_witness :
    (∃ x ∈ ([3, 0, 4] : List ℝ), x ≠ 0) ∧ cosineSimilarity Real.sqrt [3, 0, 4] [3, 0, 4] = 1 :=
  ⟨⟨3, by simp, by norm_num⟩, cosineSimilarity_self [3, 0, 4] ⟨3, by simp, by norm_num⟩⟩

/-- Claim C9. For equal-length vectors, if every entry of `a` is `0` or every
entry of `b` is `0`, the guard `magnitudeA === 0 || magnitudeB === 0` holds, so
`cosineSimilarity a b` returns `0` from the guard without dividing; in
particular `cosineSimilarity v zeroVector = 0`.  The only fact used about
`Math.sqrt` is `Math.sqrt(0) = 0`; the length hypothesis is the one under
which the embedding of the dot-product loop is exact. -/
theorem cosineSimilarity_zero_vector (sqrt : α → α) (hsqrt : sqrt 0 = 0) (a b : List α)
    (_hlen : a.length = b.length) (hzero : (∀ x ∈ a, x = 0) ∨ (∀ x ∈ b, x = 0)) :
    (sqrt (a.foldl (fun sum val => sum + val * val) 0) = 0 ∨
        sqrt (b.foldl (fun sum val => sum + val * val) 0) = 0) ∧
      cosineSimilarity sqrt a b = 0 ∧
      cosineSimilarity sqrt a (List.replicate a.length 0) = 0 := by
  have hguard : sqrt (sumSquares a) = 0 ∨ sqrt (sumSquares b) = 0 := by
    rcases hzero with h | h
    · left; rw [sumSquares_of_all_zero a h, hsqrt]
    · right; rw [sumSquares_of_all_zero b h, hsqrt]
  refine ⟨?_, ?_, ?_⟩
  · simpa only [foldl_add_map, zero_add, sumSquares] using hguard
  · rw [cosineSimilarity_eq, if_pos hguard]
  · rw [cosineSimilarity_eq, if_pos]
    right
    rw [sumSquares_of_all_zero _ (fun x hx => List.eq_of_mem_replicate hx), hsqrt]

theorem cosineSimilarity_zero_vector_witness :
    Real.sqrt 0 = 0 ∧ ([1, 2, 2] : List ℝ).length = ([0, 0, 0] : List ℝ).length ∧
      ((∀ x ∈ ([1, 2, 2] : List ℝ), x = 0) ∨ (∀ x ∈ ([0, 0, 0] : List ℝ), x = 0)) ∧
      cosineSimilarity Real.sqrt ([1, 2, 2] : List ℝ) [0, 0, 0] = 0 :=
  ⟨Real.sqrt_zero, rfl, Or.inr (by simp),
    (cosineSimilarity_zero_vector Real.sqrt Real.sqrt_zero [1, 2, 2] [0, 0, 0] rfl
      (Or.inr (by simp))).2.1⟩

end CosineFacts

/-! ## The user profile: `toggleLike`, `updateRating`, `resetUserState` -/

section ToggleFacts

variable {α : Type}

theorem jsIndexOf_of_not_mem (l : List Nat) (x : Nat) (h : x ∉ l) : jsIndexOf l x = -1 := by
  simp [jsIndexOf, h]

theorem jsIndexOf_of_mem (l : List Nat) (x : Nat) (h : x ∈ l) :
    jsIndexOf l x = (l.indexOf x : Int) := by
  simp [jsIndexOf, h]

theorem toggleLike_of_not_mem (st : UserState α) (itemId : Nat) (h : itemId ∉ st.likedItems) :
    toggleLike st itemId = { likedItems := st.likedItems ++ [itemId], ratings := st.ratings } := by
  unfold toggleLike
  simp only [jsIndexOf_of_not_mem _ _ h, if_true]

theorem toggleLike_of_mem (st : UserState α) (itemId : Nat) (h : itemId ∈ st.likedItems) :
    toggleLike st itemId =
      { likedItems := st.likedItems.eraseIdx (st.likedItems.indexOf itemId),
        ratings := st.ratings } := by
  unfold toggleLike
  simp only [jsIndexOf_of_mem _ _ h]
  rw [if_neg (by omega)]
  simp

theorem toggleLike_ratings (st : UserState α) (itemId : Nat) :
    (toggleLike st itemId).ratings = st.ratings := by
  unfold toggleLike
  simp only []
  split <;> rfl

/-- Claim C12. For an id that is not in `likedItems`, `toggleLike(id)` followed
by `toggleLike(id)` gives back the same `likedItems` (same ids, same order),
and neither call changes the ratings map. -/
theorem toggleLike_twice (st : UserState α) (itemId : Nat) (h : itemId ∉ st.likedItems) :
    (toggleLike (toggleLike st itemId) itemId).likedItems = st.likedItems ∧
      (toggleLike st itemId).ratings = st.ratings ∧
      (toggleLike (toggleLike st itemId) itemId).ratings = st.ratings := by
  refine ⟨?_, toggleLike_ratings st itemId, ?_⟩
  · rw [toggleLike_of_not_mem st itemId h]
    rw [toggleLike_of_mem _ itemId (by simp)]
    simp only []
    rw [List.indexOf_append_of_not_mem h, List.indexOf_cons_self, Nat.add_zero,
      List.eraseIdx_append_of_length_le (le_refl _)]
    simp
  · rw [toggleLike_ratings, toggleLike_ratings]

theorem toggleLike_twice_witness :
    7 ∉ likesFirstFive.likedItems ∧
      (toggleLike (toggleLike likesFirstFive 7) 7).likedItems = likesFirstFive.likedItems ∧
      (toggleLike likesFirstFive 7).ratings = likesFirstFive.ratings ∧
      (toggleLike (toggleLike likesFirstFive 7) 7).ratings = likesFirstFive.ratings :=
  ⟨by decide, toggleLike_twice likesFirstFive 7 (by decide)⟩

end ToggleFacts

section ProfileFacts

variable {α : Type} [LinearOrderedField α]

/-- Claim C11 fails on the code: `updateRating(1, 6)` on the empty profile does
not fail with `InvalidArgument`; it stores the rating `6` and likes the item. -/
theorem updateRating_accepts_six :
    ((6 : ℚ) < 0 ∨ (5 : ℚ) < 6) ∧
      updateRatingOutcome emptyProfile 1 6 ≠ Except.error ProfileError.invalidArgument ∧
      (updateRating emptyProfile 1 6).ratings 1 = some 6 ∧
      (updateRating emptyProfile 1 6).likedItems = [1] := by
  refine ⟨Or.inr (by norm_num), ?_, by decide!, by decide!⟩
  intro h
  unfold updateRatingOutcome at h
  cases h

/-- Claim C11, amended. For every item id and every rating value outside
`[0, 5]`, `updateRating` does not fail: the call completes normally, the
ratings map then holds that value for the id, and the id is in `likedItems`. -/
theorem updateRating_out_of_range (st : UserState α) (itemId : Nat) (rating : α)
    (h : rating < 0 ∨ 5 < rating) :
    updateRatingOutcome st itemId rating = Except.ok (updateRating st itemId rating) ∧
      (updateRating st itemId rating).ratings itemId = some rating ∧
      itemId ∈ (updateRating st itemId rating).likedItems := by
  have hne : rating ≠ 0 := by
    rcases h with h | h
    · exact ne_of_lt h
    · exact ne_of_gt (lt_trans (by norm_num) h)
  refine ⟨rfl, ?_, ?_⟩
  · unfold updateRating
    rw [if_neg hne]
    simp only []
    split <;> simp
  · unfold updateRating
    rw [if_neg hne]
    simp only []
    split
    · simp
    · rename_i hmem
      simpa using hmem

theorem updateRating_out_of_range_witness :
    ((-1 : ℚ) < 0 ∨ (5 : ℚ) < -1) ∧
      updateRatingOutcome likesFirstFive 7 (-1) =
        Except.ok (updateRating likesFirstFive 7 (-1)) ∧
      (updateRating likesFirstFive 7 (-1)).ratings 7 = some (-1) ∧
      7 ∈ (updateRating likesFirstFive 7 (-1)).likedItems :=
  ⟨Or.inl (by norm_num),
    updateRating_out_of_range likesFirstFive 7 (-1) (Or.inl (by norm_num))⟩

/-- Claim C13. For a rating `r` in `[1, 5]`, after `updateRating(id, r)` the
ratings map holds `r` for `id`, `id` is in `likedItems` (appended at the end
if it was absent, `likedItems` unchanged otherwise), and the rating of every
other id is unchanged. -/
theorem updateRating_rate (st : UserState α) (itemId : Nat) (r : α)
    (hr : ∃ n : ℕ, 1 ≤ n ∧ n ≤ 5 ∧ r = (n : α)) :
    (updateRating st itemId r).ratings itemId = some r ∧
      itemId ∈ (updateRating st itemId r).likedItems ∧
      (itemId ∉ st.likedItems →
        (updateRating st itemId r).likedItems = st.likedItems ++ [itemId]) ∧
      (itemId ∈ st.likedItems → (updateRating st itemId r).likedItems = st.likedItems) ∧
      (∀ other, other ≠ itemId →
        (updateRating st itemId r).ratings other = st.ratings other) := by
  have hne : r ≠ 0 := by
    obtain ⟨n, hn1, -, rfl⟩ := hr
    have : (0 : α) < (n : α) := by exact_mod_cast hn1
    exact this.ne'
  unfold updateRating
  rw [if_neg hne]
  simp only []
  by_cases hmem : itemId ∈ st.likedItems
  · have hc : ¬ (¬ st.likedItems.contains itemId = true) := by simpa using hmem
    rw [if_neg hc]
    refine ⟨by simp, hmem, fun h => absurd hmem h, fun _ => rfl, ?_⟩
    intro other hother
    simp [hother]
  · have hc : ¬ st.likedItems.contains itemId = true := by simpa using hmem
    rw [if_pos hc]
    refine ⟨by simp, by simp, fun _ => rfl, fun h => absurd h hmem, ?_⟩
    intro other hother
    simp [hother]

theorem updateRating_rate_witness :
    (∃ n : ℕ, 1 ≤ n ∧ n ≤ 5 ∧ (4 : ℚ) = (n : ℚ)) ∧
      (updateRating likesFirstFive 7 4).ratings 7 = some 4 ∧
      7 ∈ (updateRating likesFirstFive 7 4).likedItems ∧
      (updateRating likesFirstFive 7 4).likedItems = likesFirstFive.likedItems ++ [7] ∧
      (updateRating likesFirstFive 3 4).likedItems = likesFirstFive.likedItems ∧
      (updateRating likesFirstFive 7 4).ratings 2 = likesFirstFive.ratings 2 :=
  have hr : ∃ n : ℕ, 1 ≤ n ∧ n ≤ 5 ∧ (4 : ℚ) = (n : ℚ) := ⟨4, by decide, by decide, by norm_num⟩
  ⟨hr, (updateRating_rate likesFirstFive 7 4 hr).1,
    (updateRating_rate likesFirstFive 7 4 hr).2.1,
    (updateRating_rate likesFirstFive 7 4 hr).2.2.1 (by decide),
    (updateRating_rate likesFirstFive 3 4 hr).2.2.2.1 (by decide),
    (updateRating_rate likesFirstFive 7 4 hr).2.2.2.2 2 (by decide)⟩

/-- Claim C14. `updateRating(id, 0)` removes the rating entry of `id`, leaves
`likedItems` exactly as it was, and leaves the rating of every other id
unchanged. -/
theorem updateRating_clear (st : UserState α) (itemId : Nat) :
    (updateRating st itemId 0).ratings itemId = none ∧
      (updateRating st itemId 0).likedItems = st.likedItems ∧
      (∀ other, other ≠ itemId →
        (updateRating st itemId 0).ratings other = st.ratings other) := by
  unfold updateRating
  rw [if_pos rfl]
  refine ⟨by simp, rfl, ?_⟩
  intro other hother
  simp [hother]

theorem updateRating_clear_witness :
    likesFirstFive.ratings 2 = some 3 ∧
      (updateRating likesFirstFive 2 0).ratings 2 = none ∧
      (updateRating likesFirstFive 2 0).likedItems = [1, 2, 3, 4, 5] ∧
      (updateRating (updateRating likesFirstFive 7 4) 2 0).ratings 7 = some 4 :=
  ⟨by decide!, (updateRating_clear likesFirstFive 2).1,
    (updateRating_clear likesFirstFive 2).2.1,
    ((updateRating_clear (updateRating likesFirstFive 7 4) 2).2.2 7 (by decide)).trans
      (by decide!)⟩

/-- Claim C19. After `resetUserState` both `likedItems` and `ratings` are
empty, and `getContentBasedRecommendations` and
`getCollaborativeRecommendations` both return the empty sequence. -/
theorem reset_clears_everything (sqrt : α → α) (st : UserState α) :
    (resetUserState st).likedItems = [] ∧
      (∀ id, (resetUserState st).ratings id = none) ∧
      getContentBasedRecommendations sqrt (resetUserState st) = [] ∧
      getCollaborativeRecommendations sqrt (resetUserState st) = [] := by
  refine ⟨rfl, fun _ => rfl, ?_, ?_⟩
  · unfold getContentBasedRecommendations getUserPreferenceVector resetUserState
    simp
  · have hcur : currentUserRatings (resetUserState st) = List.replicate items.length (0 : α) := by
      rw [currentUserRatings_eq]
      simp [ratingOrZero, resetUserState, items, List.replicate, List.range, List.range.loop]
    unfold getCollaborativeRecommendations
    rw [hcur]
    simp

end ProfileFacts

/-! ## Tag vectors and the preference vector -/

section VectorFacts

variable {α : Type} [LinearOrderedField α]

theorem itemToVector_length (item : Item) :
    (itemToVector item : List α).length = allTags.length := by
  simp [itemToVector]

theorem itemToVector_getElem? (item : Item) (i : Nat) :
    (itemToVector item : List α)[i]? =
      (allTags[i]?).map (fun tag => if item.tags.contains tag then (1 : α) else 0) := by
  simp [itemToVector, List.getElem?_map]

theorem itemToVector_getD (item : Item) (i : Nat) :
    (itemToVector item : List α).getD i 0 =
      match allTags[i]? with
      | some tag => if tag ∈ item.tags then 1 else 0
      | none => 0 := by
  rw [List.getD_eq_getElem?_getD, itemToVector_getElem?]
  cases allTags[i]? with
  | none => rfl
  | some tag => simp

theorem itemToVector_getD_nonneg (item : Item) (i : Nat) :
    (0 : α) ≤ (itemToVector item : List α).getD i 0 := by
  rw [itemToVector_getD]
  split
  · split <;> norm_num
  · exact le_refl 0

theorem itemToVector_getD_pos_iff (item : Item) (i : Nat) :
    (0 : α) < (itemToVector item : List α).getD i 0 ↔
      ∃ tag, allTags[i]? = some tag ∧ tag ∈ item.tags := by
  rw [itemToVector_getD]
  cases h : allTags[i]? with
  | none => simp
  | some tag =>
    by_cases ht : tag ∈ item.tags
    · simp [ht]
    · simp [ht]

/-- Claim C16. `itemToVector(item)` has length `|allTags|`, every entry is `0`
or `1`, and entry `i` is `1` exactly when `allTags[i]` is one of the tags of
the item.  It holds for every item, in particular for every catalog item. -/
theorem itemToVector_spec (item : Item) :
    (itemToVector item : List α).length = allTags.length ∧
      (∀ x ∈ (itemToVector item : List α), x = 0 ∨ x = 1) ∧
      (∀ (i : Nat) (tag : String), allTags[i]? = some tag →
        ((itemToVector item : List α)[i]? = some 1 ↔ tag ∈ item.tags)) := by
  refine ⟨itemToVector_length item, ?_, ?_⟩
  · intro x hx
    unfold itemToVector at hx
    obtain ⟨tag, -, rfl⟩ := List.mem_map.1 hx
    split
    · right; rfl
    · left; rfl
  · intro i tag htag
    rw [itemToVector_getElem?, htag]
    by_cases ht : tag ∈ item.tags
    · simp [ht]
    · simp [ht]

theorem itemToVector_spec_witness :
    allTags[1]? = some "action" ∧
      (itemToVector (items.getD 0 default) : List ℚ).length = allTags.length ∧
      ((1 : ℚ) ∈ (itemToVector (items.getD 0 default) : List ℚ) ∧ ((1 : ℚ) = 0 ∨ (1 : ℚ) = 1)) ∧
      ((itemToVector (items.getD 0 default) : List ℚ)[1]? = some 1 ↔
        "action" ∈ (items.getD 0 default).tags) :=
  ⟨by decide, (itemToVector_spec (items.getD 0 default)).1,
    ⟨by decide!, (itemToVector_spec (items.getD 0 default)).2.1 1 (by decide!)⟩,
    (itemToVector_spec (items.getD 0 default)).2.2 1 "action" (by decide)⟩

theorem zipWith_add_length (a b : List α) (h : a.length = b.length) :
    (List.zipWith (fun u v => u + v) a b).length = a.length := by
  simp [List.length_zipWith, h]

theorem zipWith_add_getD (a b : List α) (h : a.length = b.length) (i : Nat) :
    (List.zipWith (fun u v => u + v) a b).getD i 0 = a.getD i 0 + b.getD i 0 := by
  induction a generalizing b i with
  | nil =>
    cases b with
    | nil => simp
    | cons y ys => simp at h
  | cons x xs ih =>
    cases b with
    | nil => simp at h
    | cons y ys =>
      cases i with
      | zero => simp
      | succ j =>
        have := ih ys (by simpa using h) j
        simpa using this

/-- The loop of `getUserPreferenceVector`, started from any vector `acc` of
length `|allTags|`: the length is kept and every position receives the sum of
the entries of the vectors of the liked ids that resolve. -/
theorem preference_fold (ids : List Nat) (acc : List α) (hacc : acc.length = allTags.length) :
    (ids.foldl
        (fun userVector itemId =>
          match items.find? (fun item => item.id == itemId) with
          | some item => List.zipWith (fun u v => u + v) userVector (itemToVector item)
          | none => userVector)
        acc).length = allTags.length ∧
      ∀ i, (ids.foldl
          (fun userVector itemId =>
            match items.find? (fun item => item.id == itemId) with
            | some item => List.zipWith (fun u v => u + v) userVector (itemToVector item)
            | none => userVector)
          acc).getD i 0 =
        acc.getD i 0 +
          (((ids.filterMap (fun itemId => items.find? (fun item => item.id == itemId))).map
            (fun it => (itemToVector it : List α).getD i 0)).sum) := by
  induction ids generalizing acc with
  | nil => simp [hacc]
  | cons itemId rest ih =>
    rw [List.foldl_cons]
    cases hfind : items.find? (fun item => item.id == itemId) with
    | none =>
      simp only [List.filterMap_cons, hfind]
      exact ih acc hacc
    | some item =>
      simp only [List.filterMap_cons, hfind]
      have hlen : acc.length = (itemToVector item : List α).length := by
        rw [hacc, itemToVector_length]
      have hacc2 : (List.zipWith (fun u v => u + v) acc (itemToVector item : List α)).length =
          allTags.length := by
        rw [zipWith_add_length _ _ hlen, hacc]
      obtain ⟨h1, h2⟩ := ih _ hacc2
      refine ⟨h1, ?_⟩
      intro i
      rw [h2 i, zipWith_add_getD _ _ hlen, List.map_cons, List.sum_cons, add_assoc]

/-- The branch `likedItems.length === 0` returns what the loop would return. -/
theorem getUserPreferenceVector_eq_fold (st : UserState α) :
    getUserPreferenceVector st =
      st.likedItems.foldl
        (fun userVector itemId =>
          match items.find? (fun item => item.id == itemId) with
          | some item => List.zipWith (fun u v => u + v) userVector (itemToVector item)
          | none => userVector)
        (List.replicate allTags.length 0) := by
  unfold getUserPreferenceVector
  simp only []
  split
  · rename_i h
    rw [List.length_eq_zero.1 h]
    rfl
  · rfl

theorem getUserPreferenceVector_length (st : UserState α) :
    (getUserPreferenceVector st).length = allTags.length := by
  rw [getUserPreferenceVector_eq_fold]
  exact (preference_fold st.likedItems _ (by simp)).1

theorem getUserPreferenceVector_getD (st : UserState α) (i : Nat) :
    (getUserPreferenceVector st).getD i 0 =
      ((likedCatalogItems st).map (fun it => (itemToVector it : List α).getD i 0)).sum := by
  rw [getUserPreferenceVector_eq_fold, (preference_fold st.likedItems _ (by simp)).2 i]
  have h0 : (List.replicate allTags.length (0 : α)).getD i 0 = 0 := by
    rw [List.getD_eq_getElem?_getD]
    cases h : (List.replicate allTags.length (0 : α))[i]? with
    | none => rfl
    | some x =>
      have := List.getElem?_mem h
      simpa using (List.eq_of_mem_replicate this)
  rw [h0, zero_add]
  rfl

/-- Claim C15. `getUserPreferenceVector` returns a vector of length `|allTags|`
that is the element-wise sum of `itemToVector` over every entry of
`likedItems` that resolves to a catalog item (the other ids contribute
nothing); it is the zero vector when `likedItems` is empty. -/
theorem getUserPreferenceVector_spec (st : UserState α) :
    (getUserPreferenceVector st).length = allTags.length ∧
      getUserPreferenceVector st =
        vectorSum allTags.length ((likedCatalogItems st).map (fun it => itemToVector it)) ∧
      (st.likedItems = [] →
        getUserPreferenceVector st = List.replicate allTags.length 0) := by
  refine ⟨getUserPreferenceVector_length st, ?_, ?_⟩
  · apply List.ext_getElem
    · rw [getUserPreferenceVector_length]
      simp [vectorSum]
    · intro i h1 h2
      have hget : (getUserPreferenceVector st)[i] = (getUserPreferenceVector st).getD i 0 := by
        rw [List.getD_eq_getElem?_getD, List.getElem?_eq_getElem h1]
        rfl
      rw [hget, getUserPreferenceVector_getD]
      simp [vectorSum, List.map_map]
      rfl
  · intro h
    unfold getUserPreferenceVector
    simp [h]

theorem getUserPreferenceVector_spec_witness :
    emptyProfile.likedItems = [] ∧
      getUserPreferenceVector emptyProfile = List.replicate allTags.length 0 ∧
      (getUserPreferenceVector likesFirstFive).length = allTags.length ∧
      getUserPreferenceVector likesFirstFive =
        vectorSum allTags.length
          ((likedCatalogItems likesFirstFive).map (fun it => itemToVector it)) :=
  ⟨rfl, (getUserPreferenceVector_spec emptyProfile).2.2 rfl,
    (getUserPreferenceVector_spec likesFirstFive).1,
    (getUserPreferenceVector_spec likesFirstFive).2.1⟩

end VectorFacts

/-! ## Content-based recommender: the ranking -/

section RankingFacts

variable {α : Type} [LinearOrderedField α]

theorem filterMap_ite_none {β γ : Type} (c : β → Bool) (f : β → γ) (l : List β) :
    l.filterMap (fun x => if c x = true then none else some (f x)) =
      (l.filter (fun x => !c x)).map f := by
  induction l with
  | nil => rfl
  | cons x xs ih =>
    by_cases hx : c x = true
    · simp [List.filterMap_cons, List.filter_cons, hx, ih]
    · simp [List.filterMap_cons, List.filter_cons, hx, ih]

/-- Function `getContentBasedRecommendations` in terms of `itemScores`. -/
theorem getContentBasedRecommendations_eq (sqrt : α → α) (st : UserState α) :
    getContentBasedRecommendations sqrt st =
      if (getUserPreferenceVector st).all (fun val => decide (val = 0)) = true then []
      else (sort (fun a b => b.score - a.score) (itemScores sqrt st)).take 5 := by
  unfold getContentBasedRecommendations itemScores
  simp only []
  split
  · rfl
  · rw [← filterMap_ite_none]
    rfl

theorem all_zero_false_of_exists (v : List α) (h : ∃ x ∈ v, x ≠ 0) :
    ¬ (v.all (fun val => decide (val = 0)) = true) := by
  intro hall
  obtain ⟨x, hx, hx0⟩ := h
  rw [List.all_eq_true] at hall
  exact hx0 (by simpa using hall x hx)

theorem mem_itemScores (sqrt : α → α) (st : UserState α) (item : Item) (hitem : item ∈ items)
    (hnot : item.id ∉ st.likedItems) : scoreItem sqrt st item ∈ itemScores sqrt st := by
  unfold itemScores
  apply List.mem_map_of_mem
  rw [List.mem_filter]
  exact ⟨hitem, by simpa using hnot⟩

theorem mem_itemScores_iff (sqrt : α → α) (st : UserState α) (r : ContentResult α) :
    r ∈ itemScores sqrt st ↔
      ∃ item ∈ items, item.id ∉ st.likedItems ∧ r = scoreItem sqrt st item := by
  unfold itemScores
  rw [List.mem_map]
  constructor
  · rintro ⟨item, hmem, rfl⟩
    rw [List.mem_filter] at hmem
    exact ⟨item, hmem.1, by simpa using hmem.2, rfl⟩
  · rintro ⟨item, hitem, hnot, rfl⟩
    exact ⟨item, List.mem_filter.2 ⟨hitem, by simpa using hnot⟩, rfl⟩

theorem mem_content_mem_itemScores (sqrt : α → α) (st : UserState α) (r : ContentResult α)
    (hr : r ∈ getContentBasedRecommendations sqrt st) : r ∈ itemScores sqrt st := by
  rw [getContentBasedRecommendations_eq] at hr
  split at hr
  · simp at hr
  · exact (mem_sort_iff _ _ _).1 (List.mem_of_mem_take hr)

/-- In a list sorted by decreasing key, everything cut off by `take n` has a
key at most that of everything kept. -/
theorem sort_desc_take_drop {β : Type} (key : β → α) (l : List β) (n : Nat) :
    ∀ a ∈ (sort (fun a b => key b - key a) l).take n,
      ∀ b ∈ (sort (fun a b => key b - key a) l).drop n, key b ≤ key a := by
  have h := sort_desc_pairwise key l
  rw [← List.take_append_drop n (sort (fun a b => key b - key a) l), List.pairwise_append] at h
  exact h.2.2

/-- Claim C20. When the preference vector is nonzero,
`getContentBasedRecommendations` returns exactly
`min(5, number of catalog items not in likedItems)` results, and every
catalog item that is not liked and not returned has a cosine score at most
the score of every returned result. -/
theorem content_true_top_five (sqrt : α → α) (st : UserState α)
    (hnz : ∃ x ∈ getUserPreferenceVector st, x ≠ 0) :
    (getContentBasedRecommendations sqrt st).length =
        min 5 (items.filter (fun item => !st.likedItems.contains item.id)).length ∧
      ∀ item ∈ items, item.id ∉ st.likedItems →
        item ∉ (getContentBasedRecommendations sqrt st).map (fun r => r.item) →
        ∀ r ∈ getContentBasedRecommendations sqrt st,
          cosineSimilarity sqrt (getUserPreferenceVector st) (itemToVector item) ≤ r.score := by
  rw [getContentBasedRecommendations_eq, if_neg (all_zero_false_of_exists _ hnz)]
  constructor
  · rw [List.length_take, length_sort]
    simp [itemScores]
  · intro item hitem hnot hout r hr
    have hx : scoreItem sqrt st item ∈
        sort (fun a b : ContentResult α => b.score - a.score) (itemScores sqrt st) :=
      (mem_sort_iff _ _ _).2 (mem_itemScores sqrt st item hitem hnot)
    rw [← List.take_append_drop 5
      (sort (fun a b : ContentResult α => b.score - a.score) (itemScores sqrt st)),
      List.mem_append] at hx
    rcases hx with hx | hx
    · exfalso
      apply hout
      exact List.mem_map.2 ⟨_, hx, rfl⟩
    · exact sort_desc_take_drop (fun r : ContentResult α => r.score) _ 5 r hr _ hx

theorem content_true_top_five_witness :
    (∃ x ∈ getUserPreferenceVector likesInception, x ≠ 0) ∧
      (getContentBasedRecommendations ratSqrt likesInception).length = 5 ∧
      items.getD 1 default ∈ items ∧
      (items.getD 1 default).id ∉ likesInception.likedItems ∧
      items.getD 1 default ∉
        (getContentBasedRecommendations ratSqrt likesInception).map (fun r => r.item) ∧
      matrixForInception ∈ getContentBasedRecommendations ratSqrt likesInception ∧
      cosineSimilarity ratSqrt (getUserPreferenceVector likesInception)
        (itemToVector (items.getD 1 default)) ≤ matrixForInception.score :=
  have hnz : ∃ x ∈ getUserPreferenceVector likesInception, x ≠ 0 := ⟨1, by decide!, by decide!⟩
  ⟨hnz, (content_true_top_five ratSqrt likesInception hnz).1.trans (by decide!),
    by decide!, by decide!, by decide!, by decide!,
    (content_true_top_five ratSqrt likesInception hnz).2 (items.getD 1 default)
      (by decide!) (by decide!) (by decide!) matrixForInception (by decide!)⟩

end RankingFacts

/-! ## Content-based recommender: matching tags -/

section MatchingFacts

variable {α : Type} [LinearOrderedField α]

/-- Catalog ids are unique: looking an item up by its id finds that item. -/
theorem items_find_id : ∀ it ∈ items, items.find? (fun item => item.id == it.id) = some it := by
  decide

/-- Every tag of a catalog item is an axis of the tag vectors. -/
theorem items_tags_subset_allTags : ∀ it ∈ items, ∀ tag ∈ it.tags, tag ∈ allTags := by
  decide

/-- Every catalog item has at least one tag. -/
theorem items_tags_nonempty : ∀ it ∈ items, ∃ tag, tag ∈ it.tags := by
  intro it hit
  have h : ∀ it ∈ items, it.tags ≠ [] := by decide
  exact List.exists_mem_of_ne_nil _ (h it hit)

theorem mem_likedCatalogItems {β : Type} (st : UserState β) (it : Item) :
    it ∈ likedCatalogItems st ↔ it ∈ items ∧ it.id ∈ st.likedItems := by
  unfold likedCatalogItems
  rw [List.mem_filterMap]
  constructor
  · rintro ⟨itemId, hid, hfind⟩
    have h1 := List.find?_some hfind
    have h2 := List.mem_of_find?_eq_some hfind
    simp only [beq_iff_eq] at h1
    exact ⟨h2, h1 ▸ hid⟩
  · rintro ⟨hit, hid⟩
    exact ⟨it.id, hid, items_find_id it hit⟩

theorem sum_pos_iff_of_nonneg (l : List α) (h : ∀ x ∈ l, 0 ≤ x) :
    0 < l.sum ↔ ∃ x ∈ l, 0 < x := by
  induction l with
  | nil => simp
  | cons y ys ih =>
    have hy : 0 ≤ y := h y (List.mem_cons_self _ _)
    have hys : ∀ x ∈ ys, 0 ≤ x := fun x hx => h x (List.mem_cons_of_mem _ hx)
    have hsum : 0 ≤ ys.sum := List.sum_nonneg hys
    rw [List.sum_cons]
    constructor
    · intro hpos
      by_cases hy0 : 0 < y
      · exact ⟨y, List.mem_cons_self _ _, hy0⟩
      · have : y = 0 := le_antisymm (not_lt.1 hy0) hy
        rw [this, zero_add] at hpos
        obtain ⟨x, hx, hx0⟩ := (ih hys).1 hpos
        exact ⟨x, List.mem_cons_of_mem _ hx, hx0⟩
    · rintro ⟨x, hx, hx0⟩
      rcases List.mem_cons.1 hx with rfl | hx
      · linarith
      · have := (ih hys).2 ⟨x, hx, hx0⟩
        linarith

theorem getUserPreferenceVector_getD_nonneg (st : UserState α) (i : Nat) :
    0 ≤ (getUserPreferenceVector st).getD i 0 := by
  rw [getUserPreferenceVector_getD]
  apply List.sum_nonneg
  intro x hx
  obtain ⟨it, -, rfl⟩ := List.mem_map.1 hx
  exact itemToVector_getD_nonneg it i

/-- Position `i` of the preference vector is positive exactly when
`allTags[i]` is a tag of some liked catalog item. -/
theorem getUserPreferenceVector_getD_pos_iff (st : UserState α) (i : Nat) :
    0 < (getUserPreferenceVector st).getD i 0 ↔
      ∃ tag, allTags[i]? = some tag ∧
        ∃ it ∈ items, it.id ∈ st.likedItems ∧ tag ∈ it.tags := by
  rw [getUserPreferenceVector_getD, sum_pos_iff_of_nonneg]
  · constructor
    · rintro ⟨x, hx, hx0⟩
      obtain ⟨it, hit, rfl⟩ := List.mem_map.1 hx
      obtain ⟨tag, htag, hmem⟩ := (itemToVector_getD_pos_iff it i).1 hx0
      obtain ⟨h1, h2⟩ := (mem_likedCatalogItems st it).1 hit
      exact ⟨tag, htag, it, h1, h2, hmem⟩
    · rintro ⟨tag, htag, it, h1, h2, hmem⟩
      refine ⟨_, List.mem_map_of_mem _ ((mem_likedCatalogItems st it).2 ⟨h1, h2⟩), ?_⟩
      exact (itemToVector_getD_pos_iff it i).2 ⟨tag, htag, hmem⟩
  · intro x hx
    obtain ⟨it, -, rfl⟩ := List.mem_map.1 hx
    exact itemToVector_getD_nonneg it i

/-- A profile with a liked catalog item has a nonzero preference vector. -/
theorem preference_nonzero_of_liked (st : UserState α)
    (hliked : ∃ it ∈ items, it.id ∈ st.likedItems) :
    ∃ x ∈ getUserPreferenceVector st, x ≠ 0 := by
  obtain ⟨it, hit, hid⟩ := hliked
  obtain ⟨tag, htag⟩ := items_tags_nonempty it hit
  obtain ⟨i, hi⟩ := List.mem_iff_getElem?.1 (items_tags_subset_allTags it hit tag htag)
  have hpos := (getUserPreferenceVector_getD_pos_iff st i).2 ⟨tag, hi, it, hit, hid, htag⟩
  rw [List.getD_eq_getElem?_getD] at hpos
  cases hget : (getUserPreferenceVector st)[i]? with
  | none => simp [hget] at hpos
  | some x =>
    refine ⟨x, List.getElem?_mem hget, ?_⟩
    rw [hget] at hpos
    exact ne_of_gt (by simpa using hpos)

/-- The tags listed in `matchingTags`, by position. -/
theorem mem_scoreItem_matchingTags (sqrt : α → α) (st : UserState α) (item : Item)
    (tag : String) :
    tag ∈ (scoreItem sqrt st item).matchingTags ↔
      ∃ i, allTags[i]? = some tag ∧ 0 < (getUserPreferenceVector st).getD i 0 ∧
        0 < (itemToVector item : List α).getD i 0 := by
  unfold scoreItem
  simp only [List.mem_map, List.mem_filter, List.mem_enum_iff_getElem?, Bool.and_eq_true,
    decide_eq_true_eq, gt_iff_lt]
  constructor
  · rintro ⟨⟨i, t⟩, ⟨hget, h1, h2⟩, rfl⟩
    exact ⟨i, hget, h1, h2⟩
  · rintro ⟨i, hget, h1, h2⟩
    exact ⟨(i, tag), ⟨hget, h1, h2⟩, rfl⟩

/-- The tags listed in `matchingTags`: the tags of the item that are also tags
of some liked catalog item. -/
theorem mem_scoreItem_matchingTags_iff (sqrt : α → α) (st : UserState α) (item : Item)
    (tag : String) :
    tag ∈ (scoreItem sqrt st item).matchingTags ↔
      tag ∈ item.tags ∧ ∃ it ∈ items, it.id ∈ st.likedItems ∧ tag ∈ it.tags := by
  rw [mem_scoreItem_matchingTags]
  constructor
  · rintro ⟨i, hget, hu, hv⟩
    obtain ⟨t1, ht1, it, hit, hid, hmem⟩ := (getUserPreferenceVector_getD_pos_iff st i).1 hu
    obtain ⟨t2, ht2, hmem2⟩ := (itemToVector_getD_pos_iff (α := α) item i).1 hv
    rw [hget] at ht1 ht2
    cases ht1
    cases ht2
    exact ⟨hmem2, it, hit, hid, hmem⟩
  · rintro ⟨hmem2, it, hit, hid, hmem⟩
    obtain ⟨i, hi⟩ := List.mem_iff_getElem?.1 (items_tags_subset_allTags it hit tag hmem)
    exact ⟨i, hi, (getUserPreferenceVector_getD_pos_iff st i).2 ⟨tag, hi, it, hit, hid, hmem⟩,
      (itemToVector_getD_pos_iff item i).2 ⟨tag, hi, hmem2⟩⟩

end MatchingFacts

/-! ## Cosine similarity of non-negative vectors over the reals -/

section ScoreFacts

theorem nonneg_of_getD_nonneg (l : List ℝ) (h : ∀ i, 0 ≤ l.getD i 0) : ∀ x ∈ l, 0 ≤ x := by
  intro x hx
  obtain ⟨i, hi⟩ := List.mem_iff_getElem?.1 hx
  have := h i
  rw [List.getD_eq_getElem?_getD, hi] at this
  simpa using this

theorem getD_pos_iff (l : List ℝ) (i : Nat) :
    0 < l.getD i 0 ↔ ∃ x, l[i]? = some x ∧ 0 < x := by
  rw [List.getD_eq_getElem?_getD]
  cases l[i]? with
  | none => simp
  | some x => simp

theorem sumSquares_nonneg (v : List ℝ) : 0 ≤ sumSquares v :=
  list_sum_mul_self_nonneg v (fun x => x)

theorem all_zero_of_sumSquares_eq_zero (v : List ℝ) (h : sumSquares v = 0) :
    ∀ x ∈ v, x = 0 := by
  intro x hx
  by_contra hx0
  have := sumSquares_pos v ⟨x, hx, hx0⟩
  linarith

theorem dot_nonneg (a b : List ℝ) (ha : ∀ x ∈ a, 0 ≤ x) (hb : ∀ x ∈ b, 0 ≤ x) :
    0 ≤ ((a.zip b).map (fun p => p.1 * p.2)).sum := by
  apply List.sum_nonneg
  intro x hx
  obtain ⟨p, hp, rfl⟩ := List.mem_map.1 hx
  obtain ⟨h1, h2⟩ := List.of_mem_zip (show (p.1, p.2) ∈ a.zip b from hp)
  exact mul_nonneg (ha _ h1) (hb _ h2)

theorem dot_eq_zero_of_left (a b : List ℝ) (ha : ∀ x ∈ a, x = 0) :
    ((a.zip b).map (fun p => p.1 * p.2)).sum = 0 := by
  apply List.sum_eq_zero
  intro x hx
  obtain ⟨p, hp, rfl⟩ := List.mem_map.1 hx
  obtain ⟨h1, -⟩ := List.of_mem_zip (show (p.1, p.2) ∈ a.zip b from hp)
  rw [ha _ h1, zero_mul]

theorem dot_eq_zero_of_right (a b : List ℝ) (hb : ∀ x ∈ b, x = 0) :
    ((a.zip b).map (fun p => p.1 * p.2)).sum = 0 := by
  apply List.sum_eq_zero
  intro x hx
  obtain ⟨p, hp, rfl⟩ := List.mem_map.1 hx
  obtain ⟨-, h2⟩ := List.of_mem_zip (show (p.1, p.2) ∈ a.zip b from hp)
  rw [hb _ h2, mul_zero]

/-- For non-negative vectors the dot product is positive exactly when some
position is positive in both. -/
theorem dot_pos_iff (a b : List ℝ) (ha : ∀ x ∈ a, 0 ≤ x) (hb : ∀ x ∈ b, 0 ≤ x) :
    0 < ((a.zip b).map (fun p => p.1 * p.2)).sum ↔
      ∃ i, 0 < a.getD i 0 ∧ 0 < b.getD i 0 := by
  rw [sum_pos_iff_of_nonneg]
  · constructor
    · rintro ⟨x, hx, hx0⟩
      obtain ⟨p, hp, rfl⟩ := List.mem_map.1 hx
      obtain ⟨i, hi⟩ := List.mem_iff_getElem?.1 hp
      obtain ⟨h1, h2⟩ := List.getElem?_zip_eq_some.1 hi
      have hp1 : 0 ≤ p.1 := ha _ (List.getElem?_mem h1)
      have hp2 : 0 ≤ p.2 := hb _ (List.getElem?_mem h2)
      have hne1 : p.1 ≠ 0 := fun h0 => by simp [h0] at hx0
      have hne2 : p.2 ≠ 0 := fun h0 => by simp [h0] at hx0
      exact ⟨i, (getD_pos_iff a i).2 ⟨p.1, h1, lt_of_le_of_ne hp1 (Ne.symm hne1)⟩,
        (getD_pos_iff b i).2 ⟨p.2, h2, lt_of_le_of_ne hp2 (Ne.symm hne2)⟩⟩
    · rintro ⟨i, h1, h2⟩
      obtain ⟨x, hx, hx0⟩ := (getD_pos_iff a i).1 h1
      obtain ⟨y, hy, hy0⟩ := (getD_pos_iff b i).1 h2
      have hmem : (x, y) ∈ a.zip b :=
        List.mem_iff_getElem?.2 ⟨i, List.getElem?_zip_eq_some.2 ⟨hx, hy⟩⟩
      exact ⟨x * y, List.mem_map.2 ⟨(x, y), hmem, rfl⟩, mul_pos hx0 hy0⟩
  · intro x hx
    obtain ⟨p, hp, rfl⟩ := List.mem_map.1 hx
    obtain ⟨h1, h2⟩ := List.of_mem_zip (show (p.1, p.2) ∈ a.zip b from hp)
    exact mul_nonneg (ha _ h1) (hb _ h2)

/-- For non-negative vectors the cosine similarity is non-negative, and it is
zero exactly when the dot product is zero. -/
theorem cosine_sign (a b : List ℝ) (ha : ∀ x ∈ a, 0 ≤ x) (hb : ∀ x ∈ b, 0 ≤ x) :
    0 ≤ cosineSimilarity Real.sqrt a b ∧
      (cosineSimilarity Real.sqrt a b = 0 ↔ ((a.zip b).map (fun p => p.1 * p.2)).sum = 0) := by
  rw [cosineSimilarity_eq]
  have hdot := dot_nonneg a b ha hb
  split
  · rename_i hguard
    refine ⟨le_refl 0, ?_⟩
    constructor
    · intro _
      rcases hguard with h | h
      · exact dot_eq_zero_of_left a b
          (all_zero_of_sumSquares_eq_zero a ((Real.sqrt_eq_zero (sumSquares_nonneg a)).1 h))
      · exact dot_eq_zero_of_right a b
          (all_zero_of_sumSquares_eq_zero b ((Real.sqrt_eq_zero (sumSquares_nonneg b)).1 h))
    · intro _
      rfl
  · rename_i hguard
    push_neg at hguard
    have h1 : 0 < Real.sqrt (sumSquares a) :=
      lt_of_le_of_ne (Real.sqrt_nonneg _) (Ne.symm hguard.1)
    have h2 : 0 < Real.sqrt (sumSquares b) :=
      lt_of_le_of_ne (Real.sqrt_nonneg _) (Ne.symm hguard.2)
    have hd : 0 < Real.sqrt (sumSquares a) * Real.sqrt (sumSquares b) := mul_pos h1 h2
    refine ⟨div_nonneg hdot hd.le, ?_⟩
    rw [div_eq_zero_iff]
    constructor
    · rintro (h | h)
      · exact h
      · exact absurd h hd.ne'
    · intro h
      exact Or.inl h

/-- For equal-length vectors the cosine similarity is at most 1. -/
theorem cosine_le_one (a b : List ℝ) (hlen : a.length = b.length) :
    cosineSimilarity Real.sqrt a b ≤ 1 := by
  rw [cosineSimilarity_eq]
  split
  · norm_num
  · rename_i hguard
    push_neg at hguard
    have h1 : 0 < Real.sqrt (sumSquares a) :=
      lt_of_le_of_ne (Real.sqrt_nonneg _) (Ne.symm hguard.1)
    have h2 : 0 < Real.sqrt (sumSquares b) :=
      lt_of_le_of_ne (Real.sqrt_nonneg _) (Ne.symm hguard.2)
    have hd : 0 < Real.sqrt (sumSquares a) * Real.sqrt (sumSquares b) := mul_pos h1 h2
    have hcs := list_sum_mul_sq_le (a.zip b) (fun p : ℝ × ℝ => p.1) (fun p : ℝ × ℝ => p.2)
    have hfst : (a.zip b).map (fun p : ℝ × ℝ => p.1 * p.1) = a.map (fun val => val * val) := by
      have := List.map_fst_zip a b (le_of_eq hlen)
      conv_rhs => rw [← this]
      rw [List.map_map]
      rfl
    have hsnd : (a.zip b).map (fun p : ℝ × ℝ => p.2 * p.2) = b.map (fun val => val * val) := by
      have := List.map_snd_zip a b (le_of_eq hlen.symm)
      conv_rhs => rw [← this]
      rw [List.map_map]
      rfl
    rw [hfst, hsnd] at hcs
    have hle : ((a.zip b).map (fun p => p.1 * p.2)).sum ≤
        Real.sqrt (sumSquares a * sumSquares b) :=
      Real.le_sqrt_of_sq_le hcs
    rw [Real.sqrt_mul (sumSquares_nonneg a)] at hle
    exact (div_le_one hd).2 hle

theorem preference_nonneg (st : UserState ℝ) : ∀ x ∈ getUserPreferenceVector st, 0 ≤ x :=
  nonneg_of_getD_nonneg _ (getUserPreferenceVector_getD_nonneg st)

theorem itemToVector_nonneg (item : Item) : ∀ x ∈ (itemToVector item : List ℝ), 0 ≤ x :=
  nonneg_of_getD_nonneg _ (itemToVector_getD_nonneg item)

/-- When at most five catalog items are not liked, the record of each of them
is returned. -/
theorem mem_content_of_at_most_five {α : Type} [LinearOrderedField α] (sqrt : α → α)
    (st : UserState α) (hliked : ∃ it ∈ items, it.id ∈ st.likedItems)
    (hfew : (items.filter (fun item => !st.likedItems.contains item.id)).length ≤ 5)
    (item : Item) (hitem : item ∈ items) (hnot : item.id ∉ st.likedItems) :
    scoreItem sqrt st item ∈ getContentBasedRecommendations sqrt st := by
  rw [getContentBasedRecommendations_eq,
    if_neg (all_zero_false_of_exists _ (preference_nonzero_of_liked st hliked)),
    List.take_of_length_le, mem_sort_iff]
  · exact mem_itemScores sqrt st item hitem hnot
  · rw [length_sort]
    simpa [itemScores] using hfew

/-- Claim C17. Over the reals, `cosineSimilarity` of equal-length vectors with
non-negative entries lies in `[0, 1]`; consequently the score of every result
of `getContentBasedRecommendations` lies in `[0, 1]`. -/
theorem cosine_and_scores_in_unit_interval :
    (∀ a b : List ℝ, a.length = b.length → (∀ x ∈ a, 0 ≤ x) → (∀ x ∈ b, 0 ≤ x) →
        0 ≤ cosineSimilarity Real.sqrt a b ∧ cosineSimilarity Real.sqrt a b ≤ 1) ∧
      (∀ st : UserState ℝ, ∀ r ∈ getContentBasedRecommendations Real.sqrt st,
        0 ≤ r.score ∧ r.score ≤ 1) := by
  constructor
  · intro a b hlen ha hb
    exact ⟨(cosine_sign a b ha hb).1, cosine_le_one a b hlen⟩
  · intro st r hr
    obtain ⟨item, -, -, rfl⟩ :=
      (mem_itemScores_iff Real.sqrt st r).1 (mem_content_mem_itemScores Real.sqrt st r hr)
    refine ⟨(cosine_sign _ _ (preference_nonneg st) (itemToVector_nonneg item)).1, ?_⟩
    apply cosine_le_one
    rw [getUserPreferenceVector_length, itemToVector_length]

theorem cosine_and_scores_in_unit_interval_witness :
    (([1, 2, 2] : List ℝ).length = ([2, 0, 1] : List ℝ).length ∧
        (∀ x ∈ ([1, 2, 2] : List ℝ), 0 ≤ x) ∧ (∀ x ∈ ([2, 0, 1] : List ℝ), 0 ≤ x) ∧
        0 ≤ cosineSimilarity Real.sqrt [1, 2, 2] [2, 0, 1] ∧
        cosineSimilarity Real.sqrt [1, 2, 2] [2, 0, 1] ≤ 1) ∧
      (scoreItem Real.sqrt likesFirstFiveReal (items.getD 6 default) ∈
          getContentBasedRecommendations Real.sqrt likesFirstFiveReal ∧
        0 ≤ (scoreItem Real.sqrt likesFirstFiveReal (items.getD 6 default)).score ∧
        (scoreItem Real.sqrt likesFirstFiveReal (items.getD 6 default)).score ≤ 1) :=
  have ha : ∀ x ∈ ([1, 2, 2] : List ℝ), 0 ≤ x := by
    intro x hx
    simp only [List.mem_cons, List.mem_singleton, List.not_mem_nil, or_false] at hx
    rcases hx with h | h | h <;> subst h <;> norm_num
  have hb : ∀ x ∈ ([2, 0, 1] : List ℝ), 0 ≤ x := by
    intro x hx
    simp only [List.mem_cons, List.mem_singleton, List.not_mem_nil, or_false] at hx
    rcases hx with h | h | h <;> subst h <;> norm_num
  have hmem : scoreItem Real.sqrt likesFirstFiveReal (items.getD 6 default) ∈
      getContentBasedRecommendations Real.sqrt likesFirstFiveReal :=
    mem_content_of_at_most_five Real.sqrt likesFirstFiveReal
      ⟨items.getD 0 default, by decide, by decide⟩ (by decide) (items.getD 6 default)
      (by decide) (by decide)
  ⟨⟨rfl, ha, hb, cosine_and_scores_in_unit_interval.1 [1, 2, 2] [2, 0, 1] rfl ha hb⟩,
    ⟨hmem, cosine_and_scores_in_unit_interval.2 likesFirstFiveReal _ hmem⟩⟩

/-! ## Content-based recommender: matching tags, score and rank -/

theorem exists_shared_position_iff (st : UserState ℝ) (item : Item) :
    (∃ i, 0 < (getUserPreferenceVector st).getD i 0 ∧
        0 < (itemToVector item : List ℝ).getD i 0) ↔
      (scoreItem Real.sqrt st item).matchingTags ≠ [] := by
  constructor
  · rintro ⟨i, hu, hv⟩ hnil
    obtain ⟨tag, htag, -⟩ := (itemToVector_getD_pos_iff (α := ℝ) item i).1 hv
    have := (mem_scoreItem_matchingTags Real.sqrt st item tag).2 ⟨i, htag, hu, hv⟩
    rw [hnil] at this
    simp at this
  · intro hne
    obtain ⟨tag, htag⟩ := List.exists_mem_of_ne_nil _ hne
    obtain ⟨i, -, hu, hv⟩ := (mem_scoreItem_matchingTags Real.sqrt st item tag).1 htag
    exact ⟨i, hu, hv⟩

/-- The score of a record is zero exactly when its `matchingTags` is empty. -/
theorem scoreItem_score_eq_zero_iff (st : UserState ℝ) (item : Item) :
    (scoreItem Real.sqrt st item).score = 0 ↔
      (scoreItem Real.sqrt st item).matchingTags = [] := by
  have hsign := cosine_sign (getUserPreferenceVector st) (itemToVector item)
    (preference_nonneg st) (itemToVector_nonneg item)
  have hdot := dot_pos_iff (getUserPreferenceVector st) (itemToVector item)
    (preference_nonneg st) (itemToVector_nonneg item)
  have hnn := dot_nonneg (getUserPreferenceVector st) (itemToVector item)
    (preference_nonneg st) (itemToVector_nonneg item)
  have hshared := exists_shared_position_iff st item
  show cosineSimilarity Real.sqrt (getUserPreferenceVector st) (itemToVector item) = 0 ↔ _
  rw [hsign.2]
  constructor
  · intro h0
    by_contra hne
    have := hdot.2 (hshared.2 hne)
    linarith
  · intro hnil
    by_contra hne
    have hpos := lt_of_le_of_ne hnn (Ne.symm hne)
    exact (hshared.1 (hdot.1 hpos)) hnil

theorem scoreItem_score_nonneg (st : UserState ℝ) (item : Item) :
    0 ≤ (scoreItem Real.sqrt st item).score :=
  (cosine_sign (getUserPreferenceVector st) (itemToVector item)
    (preference_nonneg st) (itemToVector_nonneg item)).1

/-- In the first `n` entries of a list sorted by decreasing key, an entry `r`
is preceded by every element of the list whose key is strictly larger. -/
theorem ranked_before {α β : Type} [LinearOrderedField α] (key : β → α) (l : List β) (n : Nat)
    (x r : β) (hx : x ∈ l) (hr : r ∈ (sort (fun a b => key b - key a) l).take n)
    (hlt : key r < key x) :
    ∃ i j : Nat, i < j ∧ ((sort (fun a b => key b - key a) l).take n)[i]? = some x ∧
      ((sort (fun a b => key b - key a) l).take n)[j]? = some r := by
  have hpw := List.pairwise_iff_getElem.1 (sort_desc_pairwise key l)
  obtain ⟨j, hj⟩ := List.mem_iff_getElem?.1 hr
  obtain ⟨k, hk⟩ :=
    List.mem_iff_getElem?.1 ((mem_sort_iff (fun a b => key b - key a) l x).2 hx)
  have hjn : j < n := by
    by_contra hge
    rw [List.getElem?_take, if_neg hge] at hj
    cases hj
  have hj2 : (sort (fun a b => key b - key a) l)[j]? = some r := by
    rwa [List.getElem?_take, if_pos hjn] at hj
  obtain ⟨hjlen, hjr⟩ := List.getElem?_eq_some_iff.1 hj2
  obtain ⟨hklen, hkx⟩ := List.getElem?_eq_some_iff.1 hk
  rcases Nat.lt_trichotomy k j with hkj | hkj | hkj
  · refine ⟨k, j, hkj, ?_, hj⟩
    rw [List.getElem?_take, if_pos (lt_trans hkj hjn)]
    exact hk
  · exfalso
    subst hkj
    rw [hk] at hj2
    cases hj2
    exact lt_irrefl _ hlt
  · exfalso
    have := hpw j k hjlen hklen hkj
    rw [hjr, hkx] at this
    exact not_le.2 hlt this

/-- Claim C18. For a profile with at least one liked catalog item and every
result `r` of `getContentBasedRecommendations` (over the reals):
`matchingTags` holds exactly the tags of the item that are also tags of some
liked catalog item; the score is `0` if and only if `matchingTags` is empty and
is strictly positive otherwise; and when `r` shares no tag, every catalog item
that is not liked and shares a tag with the liked items is returned at an
earlier position than `r`. -/
theorem content_matching_tags_score_rank (st : UserState ℝ)
    (_hliked : ∃ it ∈ items, it.id ∈ st.likedItems)
    (r : ContentResult ℝ) (hr : r ∈ getContentBasedRecommendations Real.sqrt st) :
    (∀ tag, tag ∈ r.matchingTags ↔
        tag ∈ r.item.tags ∧ ∃ it ∈ items, it.id ∈ st.likedItems ∧ tag ∈ it.tags) ∧
      (r.score = 0 ↔ r.matchingTags = []) ∧
      (r.matchingTags ≠ [] → 0 < r.score) ∧
      (r.matchingTags = [] → ∀ item ∈ items, item.id ∉ st.likedItems →
        (∃ tag ∈ item.tags, ∃ it ∈ items, it.id ∈ st.likedItems ∧ tag ∈ it.tags) →
        ∃ i j : Nat, i < j ∧
          ((getContentBasedRecommendations Real.sqrt st)[i]?).map
              (fun x : ContentResult ℝ => x.item) = some item ∧
          (getContentBasedRecommendations Real.sqrt st)[j]? = some r) := by
  obtain ⟨item0, hitem0, hnot0, rfl⟩ :=
    (mem_itemScores_iff Real.sqrt st r).1 (mem_content_mem_itemScores Real.sqrt st r hr)
  refine ⟨fun tag => mem_scoreItem_matchingTags_iff Real.sqrt st item0 tag,
    scoreItem_score_eq_zero_iff st item0, ?_, ?_⟩
  · intro hne
    exact lt_of_le_of_ne (scoreItem_score_nonneg st item0)
      (fun h0 => hne ((scoreItem_score_eq_zero_iff st item0).1 h0.symm))
  · intro hnil item hitem hnot hshare
    obtain ⟨tag, htag, it, hit, hid, hmem⟩ := hshare
    have hx0 : (scoreItem Real.sqrt st item).matchingTags ≠ [] := by
      intro h
      have := (mem_scoreItem_matchingTags_iff Real.sqrt st item tag).2 ⟨htag, it, hit, hid, hmem⟩
      rw [h] at this
      simp at this
    have hxpos : 0 < (scoreItem Real.sqrt st item).score :=
      lt_of_le_of_ne (scoreItem_score_nonneg st item)
        (fun h0 => hx0 ((scoreItem_score_eq_zero_iff st item).1 h0.symm))
    have hr0 : (scoreItem Real.sqrt st item0).score = 0 :=
      (scoreItem_score_eq_zero_iff st item0).2 hnil
    rw [getContentBasedRecommendations_eq] at hr ⊢
    split at hr
    · simp at hr
    · rename_i hall
      rw [if_neg hall]
      obtain ⟨i, j, hij, hi, hj⟩ := ranked_before (fun x : ContentResult ℝ => x.score)
        (itemScores Real.sqrt st) 5 (scoreItem Real.sqrt st item) (scoreItem Real.sqrt st item0)
        (mem_itemScores Real.sqrt st item hitem hnot) hr
        (by show (scoreItem Real.sqrt st item0).score < (scoreItem Real.sqrt st item).score
            rw [hr0]
            exact hxpos)
      refine ⟨i, j, hij, ?_, hj⟩
      rw [hi]
      rfl

theorem content_matching_tags_score_rank_witness :
    (∃ it ∈ items, it.id ∈ likesAllButDrama.likedItems) ∧
      scoreItem Real.sqrt likesAllButDrama (items.getD 3 default) ∈
        getContentBasedRecommendations Real.sqrt likesAllButDrama ∧
      (scoreItem Real.sqrt likesAllButDrama (items.getD 3 default)).matchingTags = [] ∧
      (scoreItem Real.sqrt likesAllButDrama (items.getD 3 default)).score = 0 ∧
      (∃ i j : Nat, i < j ∧
        ((getContentBasedRecommendations Real.sqrt likesAllButDrama)[i]?).map
            (fun x : ContentResult ℝ => x.item) = some (items.getD 1 default) ∧
        (getContentBasedRecommendations Real.sqrt likesAllButDrama)[j]? =
          some (scoreItem Real.sqrt likesAllButDrama (items.getD 3 default))) :=
  have hliked : ∃ it ∈ items, it.id ∈ likesAllButDrama.likedItems :=
    ⟨items.getD 0 default, by decide, by decide⟩
  have hmem : scoreItem Real.sqrt likesAllButDrama (items.getD 3 default) ∈
      getContentBasedRecommendations Real.sqrt likesAllButDrama :=
    mem_content_of_at_most_five Real.sqrt likesAllButDrama hliked (by decide)
      (items.getD 3 default) (by decide) (by decide)
  have hnil : (scoreItem Real.sqrt likesAllButDrama (items.getD 3 default)).matchingTags = [] := by
    apply List.eq_nil_iff_forall_not_mem.2
    intro tag htag
    have h := (mem_scoreItem_matchingTags_iff Real.sqrt likesAllButDrama
      (items.getD 3 default) tag).1 htag
    have hdec : ∀ tag ∈ (items.getD 3 default).tags,
        ¬ ∃ it ∈ items, it.id ∈ likesAllButDrama.likedItems ∧ tag ∈ it.tags := by decide
    exact hdec tag h.1 h.2
  ⟨hliked, hmem, hnil,
    (content_matching_tags_score_rank likesAllButDrama hliked _ hmem).2.1.2 hnil,
    (content_matching_tags_score_rank likesAllButDrama hliked _ hmem).2.2.2 hnil
      (items.getD 1 default) (by decide) (by decide)
      ⟨"fantasy", by decide, items.getD 5 default, by decide, by decide, by decide⟩⟩

end ScoreFacts

/-! ## Collaborative recommender: range of the predicted rating -/

section PredictionRange

variable {α : Type} [LinearOrderedField α]

/-- A weighted average with positive weights lies between any two bounds of
the averaged values. -/
theorem weighted_average_bounds {γ : Type} (l : List γ) (w v : γ → α) (hne : l ≠ [])
    (hw : ∀ x ∈ l, 0 < w x) (lo hi : α) (hv : ∀ x ∈ l, lo ≤ v x ∧ v x ≤ hi) :
    lo ≤ (l.map (fun x => w x * v x)).sum / (l.map (fun x => |w x|)).sum ∧
      (l.map (fun x => w x * v x)).sum / (l.map (fun x => |w x|)).sum ≤ hi := by
  have habs : l.map (fun x => |w x|) = l.map w := by
    apply List.map_congr_left
    intro x hx
    exact abs_of_pos (hw x hx)
  have hpos : 0 < (l.map w).sum := by
    apply List.sum_pos
    · intro y hy
      obtain ⟨x, hx, rfl⟩ := List.mem_map.1 hy
      exact hw x hx
    · simpa using hne
  have hlo : (l.map w).sum * lo ≤ (l.map (fun x => w x * v x)).sum := by
    rw [← List.sum_map_mul_right]
    apply List.sum_le_sum
    intro x hx
    exact mul_le_mul_of_nonneg_left (hv x hx).1 (hw x hx).le
  have hhi : (l.map (fun x => w x * v x)).sum ≤ (l.map w).sum * hi := by
    rw [← List.sum_map_mul_right]
    apply List.sum_le_sum
    intro x hx
    exact mul_le_mul_of_nonneg_left (hv x hx).2 (hw x hx).le
  rw [habs]
  constructor
  · rw [le_div_iff₀ hpos, mul_comm]
    exact hlo
  · rw [div_le_iff₀ hpos, mul_comm]
    exact hhi

/-- A non-empty list has an element of least value. -/
theorem exists_least {γ : Type} (l : List γ) (f : γ → α) (hne : l ≠ []) :
    ∃ m ∈ l, ∀ x ∈ l, f m ≤ f x := by
  induction l with
  | nil => exact absurd rfl hne
  | cons y ys ih =>
    by_cases hys : ys = []
    · subst hys
      exact ⟨y, by simp, by simp⟩
    · obtain ⟨m, hm, hmin⟩ := ih hys
      by_cases hle : f y ≤ f m
      · refine ⟨y, by simp, ?_⟩
        intro x hx
        rcases List.mem_cons.1 hx with rfl | hx
        · exact le_refl _
        · exact le_trans hle (hmin x hx)
      · refine ⟨m, List.mem_cons_of_mem _ hm, ?_⟩
        intro x hx
        rcases List.mem_cons.1 hx with rfl | hx
        · exact (not_le.1 hle).le
        · exact hmin x hx

/-- A non-empty list has an element of greatest value. -/
theorem exists_greatest {γ : Type} (l : List γ) (f : γ → α) (hne : l ≠ []) :
    ∃ m ∈ l, ∀ x ∈ l, f x ≤ f m := by
  obtain ⟨m, hm, hmin⟩ := exists_least l (fun x => - f x) hne
  exact ⟨m, hm, fun x hx => neg_le_neg_iff.1 (hmin x hx)⟩

/-- Every nonzero rating of the panel lies in `[1, 5]`. -/
theorem exampleRatingsMatrix_range :
    ∀ row ∈ (exampleRatingsMatrix (α := α)), ∀ i : Nat,
      row.getD i 0 ≠ 0 → 1 ≤ row.getD i 0 ∧ row.getD i 0 ≤ 5 := by
  intro row hrow i hne
  have hall : ∀ x ∈ row, x = 0 ∨ ((1 : α) ≤ x ∧ x ≤ 5) := by
    simp only [exampleRatingsMatrix, List.mem_cons, List.mem_singleton, List.not_mem_nil,
      or_false] at hrow
    rcases hrow with h | h | h | h | h <;> subst h <;> intro x hx <;>
      simp only [List.mem_cons, List.mem_singleton, List.not_mem_nil, or_false] at hx <;>
      rcases hx with h | h | h | h | h | h | h | h | h | h <;> subst h <;> norm_num
  rw [List.getD_eq_getElem?_getD] at hne ⊢
  cases hget : row[i]? with
  | none => simp [hget] at hne
  | some x =>
    rw [hget] at hne
    rcases hall x (List.getElem?_mem hget) with h0 | h15
    · exact absurd h0 (by simpa using hne)
    · simpa using h15

theorem mem_contributingRaters (sqrt : α → α) (st : UserState α) (index : Nat)
    (row : List α) (h : row ∈ contributingRaters sqrt st index) :
    row ∈ (exampleRatingsMatrix (α := α)) ∧
      0 < pearsonCorrelation sqrt (currentUserRatings st) row ∧ row.getD index 0 ≠ 0 := by
  unfold contributingRaters at h
  obtain ⟨h1, h2⟩ := List.mem_filter.1 h
  simp only [Bool.and_eq_true, decide_eq_true_eq] at h2
  exact ⟨h1, h2.1, h2.2⟩

/-- Every result is the weighted average of a non-empty list of raters. -/
theorem collab_result_average (sqrt : α → α) (st : UserState α) (p : CollabResult α)
    (hp : p ∈ getCollaborativeRecommendations sqrt st) :
    contributingRaters sqrt st (p.item.id - 1) ≠ [] ∧
      p.predictedRating = specPredictedRating sqrt st (p.item.id - 1) := by
  obtain ⟨index, item, hmem, -, hsum, rfl⟩ :=
    (mem_predictions_iff sqrt st p).1 (mem_collab_mem_predictions sqrt st p hp)
  obtain ⟨-, hid⟩ := enum_items_id (index, item) hmem
  simp only at hid
  simp only [hid, Nat.add_sub_cancel]
  refine ⟨(similaritySum_pos_iff sqrt st index).1 hsum, ?_⟩
  rw [similaritySums_eq]
  rfl

/-- Claim C21, amended. In exact arithmetic (over the reals, rounding
ignored), for a profile whose ratings are integers in `[1, 5]`, every
`predictedRating` returned by `getCollaborativeRecommendations` lies in
`[1, 5]`; more precisely it lies between the smallest and the largest rating
that the contributing (positively correlated) panel raters gave to the item
(column `id - 1` of the panel). -/
theorem predicted_rating_range (sqrt : α → α) (st : UserState α)
    (_hst : ∀ id r, st.ratings id = some r → ∃ n : ℕ, 1 ≤ n ∧ n ≤ 5 ∧ r = (n : α))
    (p : CollabResult α) (hp : p ∈ getCollaborativeRecommendations sqrt st) :
    (1 ≤ p.predictedRating ∧ p.predictedRating ≤ 5) ∧
      ∃ least ∈ contributingRaters sqrt st (p.item.id - 1),
        ∃ greatest ∈ contributingRaters sqrt st (p.item.id - 1),
          (∀ row ∈ contributingRaters sqrt st (p.item.id - 1),
            least.getD (p.item.id - 1) 0 ≤ row.getD (p.item.id - 1) 0 ∧
              row.getD (p.item.id - 1) 0 ≤ greatest.getD (p.item.id - 1) 0) ∧
          least.getD (p.item.id - 1) 0 ≤ p.predictedRating ∧
          p.predictedRating ≤ greatest.getD (p.item.id - 1) 0 := by
  obtain ⟨hne, hpred⟩ := collab_result_average sqrt st p hp
  have hw : ∀ row ∈ contributingRaters sqrt st (p.item.id - 1),
      0 < pearsonCorrelation sqrt (currentUserRatings st) row :=
    fun row hrow => (mem_contributingRaters sqrt st _ row hrow).2.1
  have havg := weighted_average_bounds (contributingRaters sqrt st (p.item.id - 1))
    (fun row => pearsonCorrelation sqrt (currentUserRatings st) row)
    (fun row => row.getD (p.item.id - 1) 0) hne hw
  have hspec : p.predictedRating =
      ((contributingRaters sqrt st (p.item.id - 1)).map (fun row =>
          pearsonCorrelation sqrt (currentUserRatings st) row * row.getD (p.item.id - 1) 0)).sum /
        ((contributingRaters sqrt st (p.item.id - 1)).map (fun row =>
          |pearsonCorrelation sqrt (currentUserRatings st) row|)).sum := hpred
  constructor
  · rw [hspec]
    apply havg 1 5
    intro row hrow
    obtain ⟨hmem, -, hnz⟩ := mem_contributingRaters sqrt st _ row hrow
    exact exampleRatingsMatrix_range row hmem _ hnz
  · obtain ⟨least, hleast, hmin⟩ := exists_least (contributingRaters sqrt st (p.item.id - 1))
      (fun row => row.getD (p.item.id - 1) 0) hne
    obtain ⟨greatest, hgreatest, hmax⟩ :=
      exists_greatest (contributingRaters sqrt st (p.item.id - 1))
        (fun row => row.getD (p.item.id - 1) 0) hne
    refine ⟨least, hleast, greatest, hgreatest, fun row hrow => ⟨hmin row hrow, hmax row hrow⟩, ?_⟩
    rw [hspec]
    exact havg _ _ (fun row hrow => ⟨hmin row hrow, hmax row hrow⟩)

theorem predicted_rating_range_witness :
    (∀ id r, ratedTwo.ratings id = some r → ∃ n : ℕ, 1 ≤ n ∧ n ≤ 5 ∧ r = (n : ℚ)) ∧
      interstellarForRatedTwo ∈ getCollaborativeRecommendations ratSqrt ratedTwo ∧
      1 ≤ interstellarForRatedTwo.predictedRating ∧
      interstellarForRatedTwo.predictedRating ≤ 5 :=
  have hst : ∀ id r, ratedTwo.ratings id = some r → ∃ n : ℕ, 1 ≤ n ∧ n ≤ 5 ∧ r = (n : ℚ) := by
    intro id r h
    unfold ratedTwo at h
    simp only at h
    split at h
    · exact ⟨5, by decide, by decide, by simpa using h.symm⟩
    · split at h
      · exact ⟨4, by decide, by decide, by simpa using h.symm⟩
      · simp at h
  ⟨hst, by decide!,
    (predicted_rating_range ratSqrt ratedTwo hst interstellarForRatedTwo (by decide!)).1⟩

end PredictionRange

/-! ## The user profile: `likedItems` holds no id twice -/

section NodupFacts

variable {α : Type} [LinearOrderedField α]

theorem toggleLike_nodup {β : Type} (st : UserState β) (itemId : Nat)
    (h : st.likedItems.Nodup) : (toggleLike st itemId).likedItems.Nodup := by
  by_cases hmem : itemId ∈ st.likedItems
  · rw [toggleLike_of_mem st itemId hmem]
    exact h.sublist (List.eraseIdx_sublist _ _)
  · rw [toggleLike_of_not_mem st itemId hmem]
    simp only []
    rw [List.nodup_append]
    refine ⟨h, List.nodup_singleton _, ?_⟩
    intro a ha hb
    rw [List.mem_singleton] at hb
    exact hmem (hb ▸ ha)

theorem updateRating_nodup (st : UserState α) (itemId : Nat) (rating : α)
    (h : st.likedItems.Nodup) : (updateRating st itemId rating).likedItems.Nodup := by
  unfold updateRating
  split
  · exact h
  · simp only []
    split
    · rename_i hnot
      have hmem : itemId ∉ st.likedItems := by simpa using hnot
      simp only []
      rw [List.nodup_append]
      refine ⟨h, List.nodup_singleton _, ?_⟩
      intro a ha hb
      rw [List.mem_singleton] at hb
      exact hmem (hb ▸ ha)
    · exact h

theorem reachable_nodup (st : UserState α) (h : Reachable st) : st.likedItems.Nodup := by
  induction h with
  | initial => exact List.nodup_nil
  | toggle st itemId _ ih => exact toggleLike_nodup st itemId ih
  | rate st itemId rating _ ih => exact updateRating_nodup st itemId rating ih
  | reset st _ _ => exact List.nodup_nil

/-- In a list without duplicates, `toggleLike` on a liked id leaves no
occurrence of it. -/
theorem toggleLike_removes {β : Type} (st : UserState β) (itemId : Nat)
    (h : st.likedItems.Nodup) (hmem : itemId ∈ st.likedItems) :
    itemId ∉ (toggleLike st itemId).likedItems := by
  rw [toggleLike_of_mem st itemId hmem]
  simp only []
  rw [List.eraseIdx_indexOf_eq_erase]
  exact h.not_mem_erase

/-- Claim C22. `likedItems` never holds an id twice: `toggleLike`,
`updateRating` and `resetUserState` turn a list without duplicates into a
list without duplicates; hence every profile reachable from the empty profile
has no duplicates, and there `toggleLike(id)` on a liked id removes it
completely. -/
theorem likedItems_nodup_invariant :
    (∀ (st : UserState α) (itemId : Nat), st.likedItems.Nodup →
        (toggleLike st itemId).likedItems.Nodup) ∧
      (∀ (st : UserState α) (itemId : Nat) (rating : α), st.likedItems.Nodup →
        (updateRating st itemId rating).likedItems.Nodup) ∧
      (∀ st : UserState α, st.likedItems.Nodup → (resetUserState st).likedItems.Nodup) ∧
      (∀ st : UserState α, Reachable st →
        st.likedItems.Nodup ∧
          ∀ itemId ∈ st.likedItems, itemId ∉ (toggleLike st itemId).likedItems) := by
  refine ⟨fun st itemId h => toggleLike_nodup st itemId h,
    fun st itemId rating h => updateRating_nodup st itemId rating h,
    fun _ _ => List.nodup_nil, ?_⟩
  intro st hreach
  have hnd := reachable_nodup st hreach
  exact ⟨hnd, fun itemId hmem => toggleLike_removes st itemId hnd hmem⟩

theorem likedItems_nodup_invariant_witness :
    likedThenRated.likedItems.Nodup ∧
      (toggleLike likedThenRated 7).likedItems.Nodup ∧
      (updateRating likedThenRated 7 2).likedItems.Nodup ∧
      (resetUserState likedThenRated).likedItems.Nodup ∧
      Reachable likedThenRated ∧
      3 ∈ likedThenRated.likedItems ∧
      3 ∉ (toggleLike likedThenRated 3).likedItems :=
  have hnd : likedThenRated.likedItems.Nodup := by decide!
  have hreach : Reachable likedThenRated :=
    Reachable.rate _ 5 4 (Reachable.toggle _ 3 Reachable.initial)
  ⟨hnd, likedItems_nodup_invariant.1 likedThenRated 7 hnd,
    likedItems_nodup_invariant.2.1 likedThenRated 7 2 hnd,
    likedItems_nodup_invariant.2.2.1 likedThenRated hnd,
    hreach, by decide!,
    (likedItems_nodup_invariant.2.2.2 likedThenRated hreach).2 3 (by decide!)⟩

end NodupFacts

/-! ## The collaborative recommender in binary64: what rounding changes -/

section RoundingFacts

/-- Claim C5 fails on the code. With the integer ratings
`1: 1, 2: 1, 3: 1, 4: 3, 7: 2` the code, computing in binary64, returns item 6
with `predictedRating = 3 - 2^-51` (printed `2.9999999999999996`). The only
rater with a positive correlation and a nonzero rating for item 6 is rater 2,
with rating 3, so `Σ (sim_r * rating_r) / Σ |sim_r|` is exactly 3: the
rounding of `sim * 3` and of the quotient makes the returned value differ. -/
theorem prediction_differs_from_formula :
    items.map (fun item => ratedFive.ratings item.id) =
        [some 1, some 1, some 1, some 3, none, none, some 2, none, none, none] ∧
      (Binary64.getCollaborativeRecommendations ratedFive).map
          (fun p => (p.item.id, p.predictedRating)) =
        [(8, 5), (5, 4), (9, 4), (10, 4), (6, 3 - 1 / 2 ^ 51)] ∧
      (Binary64.contributingRaters ratedFive 5).map (fun row =>
          (Binary64.pearsonCorrelation (currentUserRatings ratedFive) row, row.getD 5 0)) =
        [(3275345183542179 / 36028797018963968, 3)] ∧
      Binary64.specPredictedRating ratedFive 5 = 3 ∧
      (3 - 1 / 2 ^ 51 : ℚ) ≠ Binary64.specPredictedRating ratedFive 5 := by
  refine ⟨by decide, by decide!, by decide!, by decide!, by decide!⟩

/-- Claim C21 fails on the code. With the integer ratings
`1: 1, 3: 5, 4: 4, 6: 2` the code, computing in binary64, returns item 7 with
`predictedRating = 5 + 2^-50` (printed `5.000000000000001`): above 5, and
above the only rating a contributing rater gave to item 7, which is 5. -/
theorem prediction_above_five :
    items.map (fun item => ratedFour.ratings item.id) =
        [some 1, none, some 5, some 4, none, some 2, none, none, none, none] ∧
      (Binary64.getCollaborativeRecommendations ratedFour).map
          (fun p => (p.item.id, p.predictedRating)) =
        [(7, 5 + 1 / 2 ^ 50), (9, 4)] ∧
      (Binary64.contributingRaters ratedFour 6).map (fun row => row.getD 6 0) = [5] ∧
      (5 : ℚ) < 5 + 1 / 2 ^ 50 := by
  refine ⟨by decide, by decide!, by decide!, by norm_num⟩

end RoundingFacts

end RecSys
